import Mathlib

/-!
Verification of the prompt-resolution core of `workflow_images/extract_prompt.py`.

The embedding models parsed JSON values as `JVal` (JSON objects and floats do
not occur at the positions the resolution logic inspects beyond what `JVal`
covers; floats are absent from the graphs in scope).  Python's `==` on such
values identifies `True`/`False` with `1`/`0`; we model this by comparing
canonical forms (`canon`).  Python `None` is `JVal.null`.  Operations that can
raise an uncaught Python exception are modelled in `Except Unit`.
-/

inductive JVal : Type where
  | null : JVal
  | bool : Bool → JVal
  | int  : Int → JVal
  | str  : String → JVal
  | list : List JVal → JVal
  | obj  : List (String × JVal) → JVal
  deriving Repr, Inhabited

namespace JVal

/- Structural boolean equality on `JVal` (nested inductive, so written by hand). -/
mutual
def jeq : JVal → JVal → Bool
  | .null, .null => true
  | .bool a, .bool b => a == b
  | .int a, .int b => a == b
  | .str a, .str b => a == b
  | .list xs, .list ys => jeqList xs ys
  | .obj xs, .obj ys => jeqObj xs ys
  | _, _ => false

def jeqList : List JVal → List JVal → Bool
  | [], [] => true
  | x :: xs, y :: ys => jeq x y && jeqList xs ys
  | _, _ => false

def jeqObj : List (String × JVal) → List (String × JVal) → Bool
  | [], [] => true
  | (k, v) :: xs, (l, w) :: ys => k == l && jeq v w && jeqObj xs ys
  | _, _ => false
end

mutual
def jeq_iff : ∀ a b : JVal, jeq a b = true ↔ a = b
  | .null, .null => by simp [jeq]
  | .bool a, .bool b => by simp [jeq]
  | .int a, .int b => by simp [jeq]
  | .str a, .str b => by simp [jeq]
  | .list xs, .list ys => by
      simp only [jeq]
      rw [jeqList_iff xs ys]
      constructor
      · intro h; rw [h]
      · intro h; cases h; rfl
  | .obj xs, .obj ys => by
      simp only [jeq]
      rw [jeqObj_iff xs ys]
      constructor
      · intro h; rw [h]
      · intro h; cases h; rfl
  | .null, .bool _ | .null, .int _ | .null, .str _ | .null, .list _ | .null, .obj _ => by simp [jeq]
  | .bool _, .null | .bool _, .int _ | .bool _, .str _ | .bool _, .list _ | .bool _, .obj _ => by simp [jeq]
  | .int _, .null | .int _, .bool _ | .int _, .str _ | .int _, .list _ | .int _, .obj _ => by simp [jeq]
  | .str _, .null | .str _, .bool _ | .str _, .int _ | .str _, .list _ | .str _, .obj _ => by simp [jeq]
  | .list _, .null | .list _, .bool _ | .list _, .int _ | .list _, .str _ | .list _, .obj _ => by simp [jeq]
  | .obj _, .null | .obj _, .bool _ | .obj _, .int _ | .obj _, .str _ | .obj _, .list _ => by simp [jeq]

def jeqList_iff : ∀ xs ys : List JVal, jeqList xs ys = true ↔ xs = ys
  | [], [] => by simp [jeqList]
  | x :: xs, y :: ys => by
      simp only [jeqList, Bool.and_eq_true]
      rw [jeq_iff x y, jeqList_iff xs ys]
      simp
  | [], _ :: _ => by simp [jeqList]
  | _ :: _, [] => by simp [jeqList]

def jeqObj_iff : ∀ xs ys : List (String × JVal), jeqObj xs ys = true ↔ xs = ys
  | [], [] => by simp [jeqObj]
  | (k, v) :: xs, (l, w) :: ys => by
      simp only [jeqObj, Bool.and_eq_true]
      rw [jeq_iff v w, jeqObj_iff xs ys]
      simp [Prod.ext_iff, and_assoc]
  | [], _ :: _ => by simp [jeqObj]
  | _ :: _, [] => by simp [jeqObj]
end

instance : DecidableEq JVal := fun a b =>
  decidable_of_iff (jeq a b = true) (jeq_iff a b)

/- Canonical form under Python `==`: `True`/`False` become `1`/`0` (Python's
`bool` is a subtype of `int` and compares equal to the same integer). -/
mutual
def canon : JVal → JVal
  | .null => .null
  | .bool b => .int (if b then 1 else 0)
  | .int n => .int n
  | .str s => .str s
  | .list xs => .list (canonList xs)
  | .obj xs => .obj (canonObj xs)

def canonList : List JVal → List JVal
  | [] => []
  | x :: xs => canon x :: canonList xs

def canonObj : List (String × JVal) → List (String × JVal)
  | [] => []
  | (k, v) :: xs => (k, canon v) :: canonObj xs
end

end JVal

/-- Python `==` on JSON-shaped values (`True == 1`, `False == 0`, structural
otherwise).  Two `obj`s are compared structurally here, which is sound for this
development because `dict`s are unhashable in Python and therefore never occur
as dictionary keys or set members — the only places this predicate is used. -/
def pyEq (a b : JVal) : Bool := JVal.jeq (JVal.canon a) (JVal.canon b)

/-- Python hashability of a JSON value: lists and dicts are unhashable. -/
def hashable : JVal → Bool
  | .list _ => false
  | .obj _ => false
  | _ => true

/-- Python truthiness of a JSON value. -/
def truthy : JVal → Bool
  | .null => false
  | .bool b => b
  | .int n => n != 0
  | .str s => s ≠ ""
  | .list xs => xs ≠ []
  | .obj xs => xs ≠ []

/-- `v[i]` for a non-negative literal index, as `Option`: `some` when the
subscript succeeds (list within range; string within range, yielding a
one-character string), `none` when Python would raise (`IndexError` out of
range, `TypeError` for non-subscriptable values, `KeyError` for an object,
whose keys are strings and never match an integer subscript). -/
def pyIndex (v : JVal) (i : Nat) : Option JVal :=
  match v with
  | .list xs => xs.get? i
  | .str s => (s.toList.get? i).map (fun c => .str (String.mk [c]))
  | _ => none

/-! ## Text helpers (`_safe_get`, `_norm`) -/

/-- `_safe_get(lst, idx)`: bounds-checked list access, default `None`. -/
def safe_get (w : JVal) (i : Nat) : JVal :=
  match w with
  | .list xs => (xs.get? i).getD .null
  | _ => .null

/-- `x or []` as applied to an optional `widgets_values` field: a missing key
reads as `None`, any falsy value is replaced by the empty list. -/
def pyOrList (v : Option JVal) : JVal :=
  match v with
  | none => .list []
  | some x => if truthy x then x else .list []

/-- `str.strip()` for the ASCII whitespace occurring in these documents:
drop leading and trailing whitespace characters. -/
def pyStrip (s : String) : String :=
  String.mk (((s.data.dropWhile Char.isWhitespace).reverse.dropWhile
    Char.isWhitespace).reverse)

/-- `_norm(s)`: `(s or "").strip() or None`.  Raises `AttributeError`
(modelled as `.error`) when `s` is truthy but not a string. -/
def normText (s : JVal) : Except Unit JVal :=
  match (if truthy s then s else .str "") with
  | .str t => if pyStrip t = "" then .ok .null else .ok (.str (pyStrip t))
  | _ => .error ()

/-! ## Python dictionaries keyed by `(destination, slot)` pairs -/

/-- Python `==` on a pair (tuple equality is componentwise). -/
def pyEqKey (a b : JVal × JVal) : Bool := pyEq a.1 b.1 && pyEq a.2 b.2

/-- A Python dict with `(JVal, JVal)` tuple keys, as an association list in
insertion order. -/
abbrev JDict := List ((JVal × JVal) × JVal)

/-- `d.get(k)` (without default). -/
def dictFind (d : JDict) (k : JVal × JVal) : Option JVal :=
  (d.find? (fun e => pyEqKey e.1 k)).map (·.2)

/-- `d[k] = v`: replace the value of an existing `==`-equal key in place,
otherwise append a fresh entry (Python dicts preserve insertion order). -/
def dictInsert (d : JDict) (k : JVal × JVal) (v : JVal) : JDict :=
  if d.any (fun e => pyEqKey e.1 k) then
    d.map (fun e => if pyEqKey e.1 k then (e.1, v) else e)
  else d ++ [(k, v)]

/-! ## Editor-shape graph documents (`UIGraph`)

Nodes of an editor-shape document are well-formed records (`id` integer,
optional `type` string, optional declared inputs, optional widget values);
link entries are arbitrary JSON values, because `UIGraph.__init__` must
tolerate corrupt links. -/

structure InputDecl where
  name : Option String
  deriving Repr, DecidableEq

structure UINode where
  id : Int
  type : Option String
  inputs : Option (List InputDecl)
  widgets_values : Option JVal
  deriving Repr, DecidableEq

structure UIWorkflow where
  nodes : List UINode
  links : List JVal
  deriving Repr

def KNOWN_POSNEG_SAMPLERS : List String := ["KSampler", "ClownsharKSampler_Beta"]

def KNOWN_TEXT_EMBEDS_SAMPLERS : List String := ["WanVideoSampler"]

def OUTPUT_TYPES : List String := ["VHS_VideoCombine", "SaveImage", "WanVideoDecode"]

/-- One assignment `d[n.id] = n` of the node-dict comprehension
`{n["id"]: n for n in wf.get("nodes", [])}` (replace in place or append). -/
def nodeInsert (acc : List UINode) (n : UINode) : List UINode :=
  if acc.any (fun m => m.id == n.id) then
    acc.map (fun m => if m.id == n.id then n else m)
  else acc ++ [n]

/-- `self.nodes.values()` in iteration (= insertion) order. -/
def nodesValues (ns : List UINode) : List UINode := ns.foldl nodeInsert []

/-- `self.nodes.values()` of a workflow. -/
def gNodes (g : UIWorkflow) : List UINode := nodesValues g.nodes

/-- Lookup of a HASHABLE key in the node dict (node ids are integers, so the
lookup succeeds exactly when `k == some node id` under Python equality).
Only used where the key is already known hashable. -/
def nodesFind (g : UIWorkflow) (k : JVal) : Option UINode :=
  (gNodes g).find? (fun n => pyEq k (.int n.id))

/-- `self.nodes.get(k)`: Python `dict.get` hashes its key first, so an
unhashable key (a list or dict) raises `TypeError`. -/
def gNodeGet (g : UIWorkflow) (k : JVal) : Except Unit (Option UINode) :=
  if hashable k then .ok (nodesFind g k) else .error ()

/-- The reverse-edge index build of `UIGraph.__init__`: for each link entry
`L`, read `L[1], L[3], L[4]`; any exception (missing index, non-subscriptable
entry, unhashable key component) skips the entry; otherwise
`in_edge[(dst, dst_slot)] = src`. -/
def inEdgeStep (d : JDict) (L : JVal) : JDict :=
  match pyIndex L 1, pyIndex L 3, pyIndex L 4 with
  | some src, some dst, some slot =>
      if hashable dst && hashable slot then dictInsert d (dst, slot) src else d
  | _, _, _ => d

def buildInEdge (links : List JVal) : JDict := links.foldl inEdgeStep []

def inEdge (g : UIWorkflow) : JDict := buildInEdge g.links

/-- `src_for(dst_id, dst_slot)`: `self.in_edge.get((dst_id, dst_slot))` —
`dict.get` returns `None` both for a missing key and, were one stored, a
`None` value, so the result is a plain `JVal` with `null` meaning unwired. -/
def src_for (g : UIWorkflow) (dstId dstSlot : JVal) : JVal :=
  (dictFind (inEdge g) (dstId, dstSlot)).getD .null

/-- The `enumerate` loop of `input_index`: first index whose input is named
`nm`, counting from `i`. -/
def inputIndexFrom (nm : String) : Nat → List InputDecl → Option Nat
  | _, [] => none
  | i, d :: rest => if d.name = some nm then some i else inputIndexFrom nm (i + 1) rest

/-- `input_index(node, name)`: index of the first declared input whose
`name` field equals the given name. -/
def input_index (n : UINode) (name : String) : Option Nat :=
  inputIndexFrom name 0 (n.inputs.getD [])

/-- `find_nodes(types)`: all nodes whose type tag is in the set, in node
iteration order. -/
def find_nodes (g : UIWorkflow) (types : List String) : List UINode :=
  (gNodes g).filter (fun n =>
    match n.type with
    | some t => types.contains t
    | none => false)

/-- `first_node(types)`. -/
def first_node (g : UIWorkflow) (types : List String) : Option UINode :=
  (find_nodes g types).head?

/-! ## Encoder text readers -/

/-- `ENCODER_READERS.get(node_type)`: the per-type extraction rule table.
Each rule receives the raw `widgets_values` value and the positive/negative
hint. -/
def encoderReader (t : String) :
    Option (JVal → Option String → Except Unit JVal) :=
  if t = "CLIPTextEncode" then
    some (fun w _ => normText (safe_get w 0))
  else if t = "TextEncodeQwenImageEdit" then
    some (fun w _ => normText (safe_get w 0))
  else if t = "WanVideoTextEncode" then
    some (fun w which =>
      normText (if which = some "negative" then safe_get w 1 else safe_get w 0))
  else none

/-- `read_text_from_node(nid, which)`.  `self.nodes.get(nid)` raises on an
unhashable id, which propagates out of the call. -/
def read_text_from_node (g : UIWorkflow) (nid : JVal) (which : Option String) :
    Except Unit JVal :=
  if nid = .null then .ok .null
  else do
    let n ← gNodeGet g nid
    let wv : JVal := (n.bind (·.widgets_values)).getD .null
    match n.bind (·.type) with
    | some t =>
        match encoderReader t with
        | some r => r wv which
        | none => .ok .null
    | none => .ok .null

/-! ## Reachability check (`UIGraph._reaches_output`)

The adjacency build here has no exception handler (unlike `__init__`), so a
link entry whose fields `L[1]`/`L[3]` cannot be read, or whose source field is
unhashable, raises out of the whole call. -/

abbrev OutMap := List (JVal × List JVal)

/-- `out_by_src.setdefault(L[1], []).append(L[3])`. -/
def outInsert (d : OutMap) (src dst : JVal) : OutMap :=
  if d.any (fun e => pyEq e.1 src) then
    d.map (fun e => if pyEq e.1 src then (e.1, e.2 ++ [dst]) else e)
  else d ++ [(src, [dst])]

/-- Build the forward adjacency index; unguarded field access. -/
def outBySrc (links : List JVal) : Except Unit OutMap :=
  links.foldlM (fun d L =>
    match pyIndex L 1, pyIndex L 3 with
    | some src, some dst =>
        if hashable src then .ok (outInsert d src dst) else .error ()
    | _, _ => .error ()) []

/-- `out_by_src.get(nid, [])` (hashes its key). -/
def outGet (d : OutMap) (nid : JVal) : Except Unit (List JVal) :=
  if hashable nid then
    .ok (((d.find? (fun e => pyEq e.1 nid)).map (·.2)).getD [])
  else .error ()

/-- `(self.nodes.get(dst) or {}).get("type") in self.OUTPUT_TYPES`.  The BFS
has already hashed `dst` (via `dst in seen`) before this lookup, so the key
is hashable here and the total lookup is faithful. -/
def isOutputNode (g : UIWorkflow) (dst : JVal) : Bool :=
  match (nodesFind g dst).bind (·.type) with
  | some t => OUTPUT_TYPES.contains t
  | none => false

/-- Inner loop of one BFS layer: scan the successors of one frontier node.
`none` encodes the early `return True`. -/
def scanDsts (g : UIWorkflow) (seen nxt : List JVal) :
    List JVal → Except Unit (Option (List JVal × List JVal))
  | [] => .ok (some (seen, nxt))
  | dst :: rest =>
      if hashable dst then
        if seen.any (fun x => pyEq dst x) then scanDsts g seen nxt rest
        else if isOutputNode g dst then .ok none
        else scanDsts g (seen ++ [dst]) (nxt ++ [dst]) rest
      else .error ()

/-- One BFS layer: scan all frontier nodes (`for nid in q`). -/
def scanLayer (g : UIWorkflow) (out : OutMap) (seen nxt : List JVal) :
    List JVal → Except Unit (Option (List JVal × List JVal))
  | [] => .ok (some (seen, nxt))
  | nid :: rest => do
      let dsts ← outGet out nid
      match ← scanDsts g seen nxt dsts with
      | none => .ok none
      | some (seen', nxt') => scanLayer g out seen' nxt' rest

/-- `while q and hops < max_hops`: the fuel is the number of layers that may
still be processed. -/
def bfsLoop (g : UIWorkflow) (out : OutMap) (seen q : List JVal) :
    Nat → Except Unit Bool
  | 0 => .ok false
  | fuel + 1 =>
      if q.isEmpty then .ok false
      else do
        match ← scanLayer g out seen [] q with
        | none => .ok true
        | some (seen', nxt) => bfsLoop g out seen' nxt fuel

/-- `_reaches_output(start_id, max_hops=200)`. -/
def reaches_output (g : UIWorkflow) (startId : JVal) (maxHops : Nat := 200) :
    Except Unit Bool := do
  let out ← outBySrc g.links
  if hashable startId then bfsLoop g out [startId] [startId] maxHops
  else .error ()

/-! ## Sampler selection (`sampler_with_posneg`, `sampler_with_text_embeds`) -/

/-- `None` passed where a slot index is expected (then used as half of a
dict key), versus an actual index. -/
def slotVal (o : Option Nat) : JVal :=
  match o with
  | some i => .int i
  | none => .null

/-- `x is not None` for a value obtained through `dict.get`. -/
def isWired (v : JVal) : Bool := v ≠ .null

/-- Mode-1 qualification: allow-listed type, declared `positive` and
`negative` inputs, and at least one of the two wired. -/
def posnegQualifies (g : UIWorkflow) (n : UINode) : Bool :=
  match n.type with
  | none => false
  | some t =>
      if KNOWN_POSNEG_SAMPLERS.contains t then
        let names := (n.inputs.getD []).map (·.name)
        if names.contains (some "positive") && names.contains (some "negative") then
          isWired (src_for g (.int n.id) (slotVal (input_index n "positive"))) ||
          isWired (src_for g (.int n.id) (slotVal (input_index n "negative")))
        else false
      else false

/-- Mode-2 qualification: allow-listed type, declared `text_embeds` input,
wired (strict gate). -/
def textEmbedsQualifies (g : UIWorkflow) (n : UINode) : Bool :=
  match n.type with
  | none => false
  | some t =>
      if KNOWN_TEXT_EMBEDS_SAMPLERS.contains t then
        let names := (n.inputs.getD []).map (·.name)
        if names.contains (some "text_embeds") then
          isWired (src_for g (.int n.id) (slotVal (input_index n "text_embeds")))
        else false
      else false

/-- `for candidate in candidates: if self._reaches_output(candidate["id"]):
return candidate`. -/
def firstReaching (g : UIWorkflow) : List UINode → Except Unit (Option UINode)
  | [] => .ok none
  | c :: rest => do
      let b ← reaches_output g (.int c.id)
      if b then .ok (some c) else firstReaching g rest

def sampler_with_posneg (g : UIWorkflow) : Except Unit (Option UINode) := do
  let candidates := (gNodes g).filter (posnegQualifies g)
  match ← firstReaching g candidates with
  | some c => .ok (some c)
  | none => .ok candidates.head?

def sampler_with_text_embeds (g : UIWorkflow) : Except Unit (Option UINode) := do
  let candidates := (gNodes g).filter (textEmbedsQualifies g)
  match ← firstReaching g candidates with
  | some c => .ok (some c)
  | none => .ok candidates.head?

/-! ## The resolution pipeline (`extract_prompts`)

The UI-graph branch of `extract_prompts` is transliterated block by block;
the labelled blocks (a)/(b)/(c) of the source appear in order, with
fall-through between blocks expressed by calling the next block's
definition. -/

/-- `g.src_for(node["id"], idx) if idx is not None else None`. -/
def optSlotSrc (g : UIWorkflow) (n : UINode) (name : String) : JVal :=
  match input_index n name with
  | some i => src_for g (.int n.id) (.int i)
  | none => .null

/-- Block (c): standalone `WanVideoTextEncode` fallback.  Returns the raw
widget values at positions 0 and 1 unconditionally when such a node exists. -/
def uiStageC (g : UIWorkflow) : Except Unit (JVal × JVal) :=
  match first_node g ["WanVideoTextEncode"] with
  | some wte =>
      let w := pyOrList wte.widgets_values
      .ok (safe_get w 0, safe_get w 1)
  | none => .ok (.null, .null)

/-- Block (b): `sampler_with_text_embeds` and its source-type dispatch. -/
def uiStageB (g : UIWorkflow) : Except Unit (JVal × JVal) := do
  match ← sampler_with_text_embeds g with
  | some sampler =>
      let eSrc := optSlotSrc g sampler "text_embeds"
      if truthy eSrc then
        match ← gNodeGet g eSrc with
        | some srcNode =>
            if srcNode.type = some "WanVideoTextEmbedBridge" then do
              let pSrc := optSlotSrc g srcNode "positive"
              let nSrc := optSlotSrc g srcNode "negative"
              let pos ← read_text_from_node g pSrc (some "positive")
              let neg ← read_text_from_node g nSrc (some "negative")
              if truthy pos || truthy neg then .ok (pos, neg) else uiStageC g
            else if srcNode.type = some "WanVideoTextEncode" then
              let w := pyOrList srcNode.widgets_values
              .ok (safe_get w 0, safe_get w 1)
            else uiStageC g
        | none => uiStageC g
      else uiStageC g
  | none => uiStageC g

/-- Block (a): `sampler_with_posneg`, then the named-slot reads. -/
def extractPromptsUI (g : UIWorkflow) : Except Unit (JVal × JVal) := do
  match ← sampler_with_posneg g with
  | some sampler =>
      let posSrc := optSlotSrc g sampler "positive"
      let negSrc := optSlotSrc g sampler "negative"
      let pos ← read_text_from_node g posSrc (some "positive")
      let neg ← read_text_from_node g negSrc (some "negative")
      if truthy pos || truthy neg then .ok (pos, neg) else uiStageB g
  | none => uiStageB g

/-! ## API-graph branch -/

/-- `d.get(k)` for a string-keyed JSON object. -/
def objGet (kvs : List (String × JVal)) (k : String) : Option JVal :=
  (kvs.find? (fun e => e.1 = k)).map (·.2)

/-- `isinstance(node, dict) and node.get("class_type") == c`. -/
def isClass (v : JVal) (c : String) : Bool :=
  match v with
  | .obj kvs =>
      match objGet kvs "class_type" with
      | some (.str s) => s = c
      | _ => false
  | _ => false

/-- `"prompt" in inputs` for an arbitrary value: key membership for a dict,
element membership for a list, substring test for a string, `TypeError`
otherwise. -/
def pyContains (k : String) (v : JVal) : Except Unit Bool :=
  match v with
  | .obj kvs => .ok (kvs.any (fun e => e.1 = k))
  | .list xs => .ok (xs.any (fun x => pyEq (.str k) x))
  | .str s => .ok (2 ≤ (s.splitOn k).length)
  | _ => .error ()

/-- The predicate the second API scan's returning path satisfies: a
single-prompt-editor (`TextEncodeQwenImageEdit`) entry whose (record) inputs
carry a `prompt` member.  The scan passes over class-matching entries that
fail the member test. -/
def qwenWithPrompt (e : String × JVal) : Bool :=
  isClass e.2 "TextEncodeQwenImageEdit" &&
    (match e.2 with
     | .obj kvs =>
         (match (objGet kvs "inputs").getD (.obj []) with
          | .obj ikvs => ikvs.any (fun p => p.1 = "prompt")
          | _ => false)
     | _ => false)

/-- Second API scan: first `TextEncodeQwenImageEdit` entry whose `inputs`
contains a `prompt` member; entries without one are passed over. -/
def apiSecondScan : List (String × JVal) → Except Unit (JVal × JVal)
  | [] => .ok (.null, .null)
  | (_, node) :: rest =>
      if isClass node "TextEncodeQwenImageEdit" then
        match node with
        | .obj kvs => do
            let inputs := (objGet kvs "inputs").getD (.obj [])
            let c ← pyContains "prompt" inputs
            if c then
              match inputs with
              | .obj ikvs => .ok ((objGet ikvs "prompt").getD .null, .null)
              | _ => .error ()
            else apiSecondScan rest
        | _ => .error ()
      else apiSecondScan rest

/-- The flat-dict branch of `extract_prompts`. -/
def extractPromptsAPI (entries : List (String × JVal)) : Except Unit (JVal × JVal) :=
  match entries.find? (fun e => isClass e.2 "WanVideoTextEncode") with
  | some (_, .obj kvs) =>
      match (objGet kvs "inputs").getD (.obj []) with
      | .obj ikvs =>
          .ok ((objGet ikvs "positive_prompt").getD .null,
               (objGet ikvs "negative_prompt").getD .null)
      | _ => .error ()
  | some (_, _) => .error ()
  | none => apiSecondScan entries

/-- A parsed workflow document as `extract_prompts` receives it: a dict with
a `nodes` key (editor shape), a dict without one (flat/API shape), or not a
dict at all. -/
inductive GraphDoc where
  | ui (g : UIWorkflow)
  | api (entries : List (String × JVal))
  | notADict

def extract_prompts : GraphDoc → Except Unit (JVal × JVal)
  | .ui g => extractPromptsUI g
  | .api entries => extractPromptsAPI entries
  | .notADict => .ok (.null, .null)

/-- The fields the index build reads from one link entry, as `__init__`
reads them: `some ((L[3], L[4]), L[1])` exactly when no exception occurs
(fields readable, key components hashable), `none` when the entry is
skipped. -/
def linkEntry (L : JVal) : Option ((JVal × JVal) × JVal) :=
  match pyIndex L 1, pyIndex L 3, pyIndex L 4 with
  | some src, some dst, some slot =>
      if hashable dst && hashable slot then some ((dst, slot), src) else none
  | _, _, _ => none

/-- Spec-side definition (for the refinement claims): the source field of the
last indexable link whose destination key matches, determined by a single
left-to-right scan of the link sequence in which a later match overwrites an
earlier one. -/
def specLastIndexedSrc (links : List JVal) (k : JVal × JVal) : Option JVal :=
  links.foldl (fun acc L =>
    match linkEntry L with
    | some e => if pyEqKey e.1 k then some e.2 else acc
    | none => acc) none

/-! ## Well-formed editor links (the document schema of the spec) -/

/-- A well-formed editor-shape link per the document schema:
`[linkId, srcId, srcSlot, dstId, dstSlot, dataType]` with integer ids/slots
and a string type tag. -/
def wellFormedLinkB : JVal → Bool
  | .list [.int _, .int _, .int _, .int _, .int _, .str _] => true
  | _ => false

instance {e a : Type} [DecidableEq e] [DecidableEq a] : DecidableEq (Except e a) := fun x y =>
  match x, y with
  | .ok u, .ok v =>
      if h : u = v then isTrue (by rw [h]) else isFalse (by intro hc; cases hc; exact h rfl)
  | .error u, .error v =>
      if h : u = v then isTrue (by rw [h]) else isFalse (by intro hc; cases hc; exact h rfl)
  | .ok _, .error _ => isFalse (by intro hc; cases hc)
  | .error _, .ok _ => isFalse (by intro hc; cases hc)

/-! ## Concrete scenario graphs used by witnesses and counterexamples -/

/-- A `CLIPTextEncode` encoder feeding the scenarios below. -/
def encCLIP : UINode :=
  { id := 20, type := some "CLIPTextEncode", inputs := some []
    widgets_values := some (.list [.str "posP"]) }

def saveNode : UINode :=
  { id := 200, type := some "SaveImage", inputs := some [], widgets_values := none }

def sampA : UINode :=
  { id := 30, type := some "KSampler"
    inputs := some [⟨some "positive"⟩, ⟨some "negative"⟩], widgets_values := none }

def sampB : UINode :=
  { id := 31, type := some "KSampler"
    inputs := some [⟨some "positive"⟩, ⟨some "negative"⟩], widgets_values := none }

/-- Two qualifying pos/neg samplers; only the second (31) reaches the
`SaveImage` output node. -/
def twoSamplerG : UIWorkflow :=
  { nodes := [sampA, sampB, encCLIP, saveNode]
    links := [.list [.int 0, .int 20, .int 0, .int 30, .int 0, .str "c"],
              .list [.int 1, .int 20, .int 0, .int 31, .int 0, .str "c"],
              .list [.int 2, .int 31, .int 0, .int 200, .int 0, .str "c"]] }

/-- The C5 scenario graph: a `KSampler` (id 10) whose `negative` input alone
is wired, to a `CLIPTextEncode` (id 9) holding `" neg text "`. -/
def negOnlyEnc : UINode :=
  { id := 9, type := some "CLIPTextEncode", inputs := some []
    widgets_values := some (.list [.str " neg text "]) }

def negOnlySampler : UINode :=
  { id := 10, type := some "KSampler"
    inputs := some [⟨some "model"⟩, ⟨some "positive"⟩, ⟨some "negative"⟩]
    widgets_values := none }

def negOnlyG : UIWorkflow :=
  { nodes := [negOnlyEnc, negOnlySampler]
    links := [.list [.int 0, .int 9, .int 0, .int 10, .int 2, .str "c"]] }

/-- Scenario for C8: `WanVideoSampler` (23) → bridge (22) whose named inputs
are wired to two `CLIPTextEncode` encoders (20, 21); the bridge holds its own
widget text, which must not surface. -/
def bridgeEncP : UINode :=
  { id := 20, type := some "CLIPTextEncode", inputs := some []
    widgets_values := some (.list [.str "posP"]) }

def bridgeEncN : UINode :=
  { id := 21, type := some "CLIPTextEncode", inputs := some []
    widgets_values := some (.list [.str "negN"]) }

def bridgeNode : UINode :=
  { id := 22, type := some "WanVideoTextEmbedBridge"
    inputs := some [⟨some "positive"⟩, ⟨some "negative"⟩]
    widgets_values := some (.list [.str "BRIDGE OWN TEXT"]) }

def wvSampler : UINode :=
  { id := 23, type := some "WanVideoSampler"
    inputs := some [⟨some "text_embeds"⟩], widgets_values := none }

def bridgeG : UIWorkflow :=
  { nodes := [bridgeEncP, bridgeEncN, bridgeNode, wvSampler]
    links := [.list [.int 0, .int 20, .int 0, .int 22, .int 0, .str "c"],
              .list [.int 1, .int 21, .int 0, .int 22, .int 1, .str "c"],
              .list [.int 2, .int 22, .int 0, .int 23, .int 0, .str "c"]] }

/-- Variant of the bridge scenario with the bridge node's id equal to 0:
the wired `text_embeds` source id is then falsy, so `if embeds_src:` skips
the bridge recursion entirely and the pipeline falls to the fallbacks. -/
def bridgeNode0 : UINode :=
  { id := 0, type := some "WanVideoTextEmbedBridge"
    inputs := some [⟨some "positive"⟩, ⟨some "negative"⟩]
    widgets_values := some (.list [.str "BRIDGE OWN TEXT"]) }

def wvSampler0 : UINode :=
  { id := 23, type := some "WanVideoSampler"
    inputs := some [⟨some "text_embeds"⟩], widgets_values := none }

def bridgeZeroG : UIWorkflow :=
  { nodes := [bridgeEncP, bridgeEncN, bridgeNode0, wvSampler0]
    links := [.list [.int 0, .int 20, .int 0, .int 0, .int 0, .str "c"],
              .list [.int 1, .int 21, .int 0, .int 0, .int 1, .str "c"],
              .list [.int 2, .int 0, .int 0, .int 23, .int 0, .str "c"]] }

/-! ## Spec-side pipeline (for the refinement claim about strategy order) -/

/-- Spec-side: what the direct pos/neg strategy yields — `some` exactly when
at least one side reads non-absent. -/
def specStageA (g : UIWorkflow) : Except Unit (Option (JVal × JVal)) := do
  match ← sampler_with_posneg g with
  | some sampler =>
      let pos ← read_text_from_node g (optSlotSrc g sampler "positive") (some "positive")
      let neg ← read_text_from_node g (optSlotSrc g sampler "negative") (some "negative")
      if (truthy pos || truthy neg) = true then .ok (some (pos, neg)) else .ok none
  | none => .ok none

/-- Spec-side: what the aggregated-embedding strategy yields.  The bridge
sub-path yields `some` exactly when a side reads non-absent; the
dual-prompt-encoder sub-path yields `some` unconditionally (raw widget
positions 0 and 1, even when both are absent). -/
def specStageB (g : UIWorkflow) : Except Unit (Option (JVal × JVal)) := do
  match ← sampler_with_text_embeds g with
  | some sampler =>
      let eSrc := optSlotSrc g sampler "text_embeds"
      if truthy eSrc then
        match ← gNodeGet g eSrc with
        | some srcNode =>
            if srcNode.type = some "WanVideoTextEmbedBridge" then do
              let pos ← read_text_from_node g (optSlotSrc g srcNode "positive") (some "positive")
              let neg ← read_text_from_node g (optSlotSrc g srcNode "negative") (some "negative")
              if (truthy pos || truthy neg) = true then .ok (some (pos, neg)) else .ok none
            else if srcNode.type = some "WanVideoTextEncode" then
              .ok (some (safe_get (pyOrList srcNode.widgets_values) 0,
                         safe_get (pyOrList srcNode.widgets_values) 1))
            else .ok none
        | none => .ok none
      else .ok none
  | none => .ok none

/-- Spec-side: the standalone dual-prompt-encoder fallback yields `some`
unconditionally whenever such a node exists (raw positions 0 and 1). -/
def specStageCOpt (g : UIWorkflow) : Option (JVal × JVal) :=
  match first_node g ["WanVideoTextEncode"] with
  | some wte => some (safe_get (pyOrList wte.widgets_values) 0,
                      safe_get (pyOrList wte.widgets_values) 1)
  | none => none

/-- Spec-side: the strategies in their fixed priority order; a stage's
`some` result is returned, a `none` falls through; absent/absent when no
stage yields. -/
def specPipeline (g : UIWorkflow) : Except Unit (JVal × JVal) := do
  match ← specStageA g with
  | some r => .ok r
  | none =>
      match ← specStageB g with
      | some r => .ok r
      | none => .ok ((specStageCOpt g).getD (.null, .null))

/-- Scenario refuting C2 as stated: `wteWithText` (id 1, holds "hello")
precedes `wteEmpty` (id 2, no widget values); a `WanVideoSampler` (id 3) has
`text_embeds` wired to the empty encoder. -/
def wteWithText : UINode :=
  { id := 1, type := some "WanVideoTextEncode", inputs := some []
    widgets_values := some (.list [.str "hello"]) }

def wteEmpty : UINode :=
  { id := 2, type := some "WanVideoTextEncode", inputs := some []
    widgets_values := some (.list []) }

def wvSamplerEmpty : UINode :=
  { id := 3, type := some "WanVideoSampler"
    inputs := some [⟨some "model"⟩, ⟨some "text_embeds"⟩], widgets_values := none }

def emptyEmbedsG : UIWorkflow :=
  { nodes := [wteWithText, wteEmpty, wvSamplerEmpty]
    links := [.list [.int 5, .int 2, .int 0, .int 3, .int 1, .str "c"]] }

/-- A value in the normalized form the spec describes: absent, or the
whitespace-stripped form of some raw text, non-empty after stripping. -/
def NormedVal (v : JVal) : Prop :=
  v = .null ∨ ∃ t : String, v = .str (pyStrip t) ∧ pyStrip t ≠ ""

/-- A standalone dual-prompt encoder whose positive widget is whitespace
only. -/
def wsWte : UINode :=
  { id := 1, type := some "WanVideoTextEncode", inputs := some []
    widgets_values := some (.list [.str "  "]) }

def wsG : UIWorkflow := { nodes := [wsWte], links := [] }

/-- Flat/API document with a dual-prompt encoder holding padded fields. -/
def apiDualDoc : List (String × JVal) :=
  [("16", .obj [("class_type", .str "WanVideoTextEncode"),
                ("inputs", .obj [("positive_prompt", .str "  padded  "),
                                 ("negative_prompt", .str "bad")])])]

/-- Flat/API document whose dual-prompt entry holds a whitespace-only
positive field. -/
def apiWsDoc : List (String × JVal) :=
  [("1", .obj [("class_type", .str "WanVideoTextEncode"),
               ("inputs", .obj [("positive_prompt", .str "  ")])])]

/-- Flat/API document with two single-prompt-editor entries: the first lacks
a `prompt` input and is passed over; the second carries one. -/
def apiQwenDoc : List (String × JVal) :=
  [("1", .obj [("class_type", .str "TextEncodeQwenImageEdit"),
               ("inputs", .obj [])]),
   ("2", .obj [("class_type", .str "TextEncodeQwenImageEdit"),
               ("inputs", .obj [("prompt", .str "hi")])])]

/-- A widget value on which `_norm` cannot raise: a string, or any falsy
value (`None`, `False`, `0`, empty containers). -/
def textLike (v : JVal) : Bool :=
  match v with
  | .str _ => true
  | _ => !truthy v

/-- The widget position a reader rule consults for a given type and hint. -/
def readerPos (t : String) (which : Option String) : Nat :=
  if t = "WanVideoTextEncode" then
    (if which = some "negative" then 1 else 0)
  else 0

/-- A `CLIPTextEncode` node whose widget value at the consulted position is a
truthy non-string (the integer 5). -/
def badWidgetNode : UINode :=
  { id := 1, type := some "CLIPTextEncode", inputs := some []
    widgets_values := some (.list [.int 5]) }

def badWidgetG : UIWorkflow := { nodes := [badWidgetNode], links := [] }

/-! ## Theorems

Helper lemmas first (dictionary laws, totality of the reachability check on
well-formed links, selection characterizations, reader lemmas), then one
theorem per claim with its witness or counterexample. -/

theorem pyEq_iff_canon {a b : JVal} : pyEq a b = true ↔ JVal.canon a = JVal.canon b :=
  JVal.jeq_iff _ _

theorem pyEq_refl (a : JVal) : pyEq a a = true := pyEq_iff_canon.mpr rfl

theorem pyEq_symm {a b : JVal} (h : pyEq a b = true) : pyEq b a = true :=
  pyEq_iff_canon.mpr (pyEq_iff_canon.mp h).symm

theorem pyEq_trans {a b c : JVal} (h1 : pyEq a b = true) (h2 : pyEq b c = true) :
    pyEq a c = true :=
  pyEq_iff_canon.mpr ((pyEq_iff_canon.mp h1).trans (pyEq_iff_canon.mp h2))

theorem normText_ok_shape {s v : JVal} (h : normText s = .ok v) :
    v = .null ∨ ∃ t : String, v = .str (pyStrip t) ∧ pyStrip t ≠ "" := by
  unfold normText at h
  rcases hm : (if truthy s then s else JVal.str "") with _ | b | n | t | xs | xs <;>
      rw [hm] at h
  · exact absurd h (by simp)
  · exact absurd h (by simp)
  · exact absurd h (by simp)
  · have h' : (if pyStrip t = "" then (Except.ok JVal.null : Except Unit JVal)
        else Except.ok (JVal.str (pyStrip t))) = Except.ok v := h
    by_cases ht : pyStrip t = ""
    · rw [if_pos ht] at h'
      cases h'
      exact Or.inl rfl
    · rw [if_neg ht] at h'
      cases h'
      exact Or.inr ⟨t, rfl, ht⟩
  · exact absurd h (by simp)
  · exact absurd h (by simp)

theorem pyEqKey_symm {a b : JVal × JVal} (h : pyEqKey a b = true) : pyEqKey b a = true := by
  simp only [pyEqKey, Bool.and_eq_true] at *
  exact ⟨pyEq_symm h.1, pyEq_symm h.2⟩

theorem pyEqKey_trans {a b c : JVal × JVal} (h1 : pyEqKey a b = true)
    (h2 : pyEqKey b c = true) : pyEqKey a c = true := by
  simp only [pyEqKey, Bool.and_eq_true] at *
  exact ⟨pyEq_trans h1.1 h2.1, pyEq_trans h1.2 h2.2⟩

theorem pyEqKey_refl (a : JVal × JVal) : pyEqKey a a = true := by
  simp only [pyEqKey, Bool.and_eq_true]
  exact ⟨pyEq_refl a.1, pyEq_refl a.2⟩

theorem dictFind_map_replace (k kl : JVal × JVal) (v : JVal) (d : JDict) :
    dictFind (d.map (fun e => if pyEqKey e.1 kl then (e.1, v) else e)) k =
      if pyEqKey k kl then (dictFind d k).map (fun _ => v) else dictFind d k := by
  induction d with
  | nil => by_cases h : pyEqKey k kl <;> simp [dictFind, h]
  | cons e t ih =>
    rw [List.map_cons]
    by_cases hekl : pyEqKey e.1 kl = true
    · rw [if_pos hekl]
      by_cases hek : pyEqKey e.1 k = true
      · have hkkl : pyEqKey k kl = true := pyEqKey_trans (pyEqKey_symm hek) hekl
        simp only [dictFind]
        rw [List.find?_cons_of_pos _ (by simpa using hek),
            List.find?_cons_of_pos _ (by simpa using hek)]
        simp [hkkl]
      · simp only [dictFind]
        rw [List.find?_cons_of_neg _ (by simpa using hek),
            List.find?_cons_of_neg _ (by simpa using hek)]
        exact ih
    · rw [if_neg hekl]
      by_cases hek : pyEqKey e.1 k = true
      · have hkkl : pyEqKey k kl = false := by
          by_contra hc
          simp only [Bool.not_eq_false] at hc
          exact absurd (pyEqKey_trans hek hc) hekl
        simp only [dictFind]
        rw [List.find?_cons_of_pos _ (by simpa using hek),
            List.find?_cons_of_pos _ (by simpa using hek)]
        simp [hkkl]
      · simp only [dictFind]
        rw [List.find?_cons_of_neg _ (by simpa using hek),
            List.find?_cons_of_neg _ (by simpa using hek)]
        exact ih

theorem dictFind_none_of_not_any {k kl : JVal × JVal} {d : JDict}
    (hany : d.any (fun e => pyEqKey e.1 kl) = false) (hkkl : pyEqKey k kl = true) :
    dictFind d k = none := by
  induction d with
  | nil => rfl
  | cons e t ih =>
    simp only [List.any_cons, Bool.or_eq_false_iff] at hany
    have hek : pyEqKey e.1 k = false := by
      by_contra hc
      simp only [Bool.not_eq_false] at hc
      exact absurd (pyEqKey_trans hc hkkl) (by simp [hany.1])
    simp only [dictFind]
    rw [List.find?_cons_of_neg _ (by simpa using hek)]
    exact ih hany.2

theorem dictFind_some_of_any {kl : JVal × JVal} {d : JDict}
    (hany : d.any (fun e => pyEqKey e.1 kl) = true) :
    ∃ v, dictFind d kl = some v := by
  induction d with
  | nil => simp at hany
  | cons e t ih =>
    simp only [List.any_cons, Bool.or_eq_true] at hany
    by_cases hek : pyEqKey e.1 kl = true
    · refine ⟨e.2, ?_⟩
      simp only [dictFind]
      rw [List.find?_cons_of_pos _ (by simpa using hek)]
      rfl
    · rcases hany with h | h
      · exact absurd h hek
      · rcases ih h with ⟨v, hv⟩
        refine ⟨v, ?_⟩
        simp only [dictFind]
        rw [List.find?_cons_of_neg _ (by simpa using hek)]
        exact hv

/-- The fundamental lookup-after-insert law for the Python dict model. -/
theorem dictFind_insert (d : JDict) (k kl : JVal × JVal) (v : JVal) :
    dictFind (dictInsert d kl v) k =
      if pyEqKey k kl then some v else dictFind d k := by
  unfold dictInsert
  by_cases hany : d.any (fun e => pyEqKey e.1 kl) = true
  · rw [if_pos hany, dictFind_map_replace]
    by_cases hkkl : pyEqKey k kl = true
    · have hanyk : d.any (fun e => pyEqKey e.1 k) = true := by
        rcases List.any_eq_true.mp hany with ⟨e, hmem, he⟩
        exact List.any_eq_true.mpr ⟨e, hmem, by
          simpa using pyEqKey_trans (by simpa using he) (pyEqKey_symm hkkl)⟩
      rcases dictFind_some_of_any hanyk with ⟨w, hw⟩
      simp [hkkl, hw]
    · simp [hkkl]
  · rw [if_neg hany]
    simp only [Bool.not_eq_true] at hany
    by_cases hkkl : pyEqKey k kl = true
    · rw [if_pos hkkl]
      have h1 : dictFind d k = none := dictFind_none_of_not_any hany hkkl
      simp only [dictFind] at h1 ⊢
      rw [List.find?_append]
      rcases hfd : List.find? (fun e => pyEqKey e.1 k) d with _ | e
      · simp only [hfd, Option.none_or]
        rw [List.find?_cons_of_pos _ (by simpa using pyEqKey_symm hkkl)]
        rfl
      · rw [hfd] at h1; simp at h1
    · rw [if_neg hkkl]
      simp only [dictFind]
      rw [List.find?_append]
      rcases hfd : List.find? (fun e => pyEqKey e.1 k) d with _ | e
      · have hklk : pyEqKey kl k = false := by
          by_contra hc
          simp only [Bool.not_eq_false] at hc
          exact hkkl (pyEqKey_symm hc)
        simp only [hfd, Option.none_or]
        rw [List.find?_cons_of_neg _ (by simpa using hklk)]
        rfl
      · simp [hfd]

/-! ## Characterization of the reverse-edge index -/

theorem pyEq_comm (a b : JVal) : pyEq a b = pyEq b a := by
  by_cases h : pyEq a b = true
  · rw [h, (pyEq_symm h)]
  · rcases hb : pyEq b a with _ | _
    · simpa using h
    · exact absurd (pyEq_symm hb) h

theorem pyEqKey_comm (a b : JVal × JVal) : pyEqKey a b = pyEqKey b a := by
  simp only [pyEqKey]
  rw [pyEq_comm a.1 b.1, pyEq_comm a.2 b.2]

theorem inEdgeStep_eq (d : JDict) (L : JVal) :
    inEdgeStep d L =
      match linkEntry L with
      | some e => dictInsert d e.1 e.2
      | none => d := by
  unfold inEdgeStep linkEntry
  rcases pyIndex L 1 with _ | src
  · rfl
  · rcases pyIndex L 3 with _ | dst
    · rfl
    · rcases pyIndex L 4 with _ | slot
      · rfl
      · by_cases h : (hashable dst && hashable slot) = true <;> simp [h]

theorem buildInEdge_find_gen (k : JVal × JVal) :
    ∀ (links : List JVal) (acc : JDict),
      dictFind (links.foldl inEdgeStep acc) k =
        links.foldl (fun a L =>
          match linkEntry L with
          | some e => if pyEqKey e.1 k then some e.2 else a
          | none => a) (dictFind acc k) := by
  intro links
  induction links with
  | nil => intro acc; rfl
  | cons L ls ih =>
    intro acc
    rw [List.foldl_cons, List.foldl_cons, ih]
    congr 1
    rw [inEdgeStep_eq]
    rcases he : linkEntry L with _ | e
    · rfl
    · rw [dictFind_insert, pyEqKey_comm k e.1]

/-- The reverse-edge index realizes the left-to-right last-wins scan. -/
theorem buildInEdge_eq_specLast (links : List JVal) (k : JVal × JVal) :
    dictFind (buildInEdge links) k = specLastIndexedSrc links k :=
  buildInEdge_find_gen k links []

theorem specLast_none_of_no_match {links : List JVal} {k : JVal × JVal}
    (h : ∀ L ∈ links, ∀ e, linkEntry L = some e → pyEqKey e.1 k = false) :
    specLastIndexedSrc links k = none := by
  unfold specLastIndexedSrc
  have gen : ∀ (ls : List JVal), (∀ L ∈ ls, ∀ e, linkEntry L = some e → pyEqKey e.1 k = false) →
      ∀ (a : Option JVal), ls.foldl (fun a L =>
          match linkEntry L with
          | some e => if pyEqKey e.1 k then some e.2 else a
          | none => a) a = a := by
    intro ls
    induction ls with
    | nil => intro _ a; rfl
    | cons L t ih =>
      intro hh a
      rw [List.foldl_cons]
      have ht : ∀ L ∈ t, ∀ e, linkEntry L = some e → pyEqKey e.1 k = false := by
        intro M hM e hM2
        exact hh M (List.mem_cons_of_mem _ hM) e hM2
      rcases he : linkEntry L with _ | e
      · rw [ih ht a]
      · have := hh L (List.mem_cons_self _ _) e he
        simp only [this]
        rw [if_neg (by simp), ih ht a]
  exact gen links h none

theorem wellFormed_shape {L : JVal} (h : wellFormedLinkB L = true) :
    ∃ l s ss d ds t, L = .list [.int l, .int s, .int ss, .int d, .int ds, .str t] := by
  unfold wellFormedLinkB at h
  split at h
  · rename_i l s ss d ds t
    exact ⟨l, s, ss, d, ds, t, rfl⟩
  · exact absurd h (by simp)

theorem except_ok_bind {α β : Type} (a : α) (f : α → Except Unit β) :
    (Except.ok a >>= f) = f a := rfl

theorem outInsert_inv {d : OutMap} {src dst : JVal}
    (hinv : ∀ e ∈ d, ∀ x ∈ e.2, hashable x = true) (hdst : hashable dst = true) :
    ∀ e ∈ outInsert d src dst, ∀ x ∈ e.2, hashable x = true := by
  unfold outInsert
  by_cases hany : d.any (fun e => pyEq e.1 src) = true
  · rw [if_pos hany]
    intro e he x hx
    rcases List.mem_map.mp he with ⟨e0, he0, hrep⟩
    by_cases hm : pyEq e0.1 src = true
    · rw [if_pos hm] at hrep
      cases hrep
      simp only at hx
      rcases List.mem_append.mp hx with h1 | h1
      · exact hinv e0 he0 x h1
      · rcases List.mem_singleton.mp h1 with rfl
        exact hdst
    · rw [if_neg hm] at hrep
      subst hrep
      exact hinv e0 he0 x hx
  · rw [if_neg hany]
    intro e he x hx
    rcases List.mem_append.mp he with h1 | h1
    · exact hinv e h1 x hx
    · rcases List.mem_singleton.mp h1 with rfl
      rcases List.mem_singleton.mp hx with rfl
      exact hdst

theorem outBySrc_ok {links : List JVal}
    (hWF : ∀ L ∈ links, wellFormedLinkB L = true) :
    ∃ out, outBySrc links = .ok out ∧ ∀ e ∈ out, ∀ x ∈ e.2, hashable x = true := by
  unfold outBySrc
  suffices gen : ∀ (ls : List JVal), (∀ L ∈ ls, wellFormedLinkB L = true) →
      ∀ (acc : OutMap), (∀ e ∈ acc, ∀ x ∈ e.2, hashable x = true) →
      ∃ out, ls.foldlM (fun d L =>
        match pyIndex L 1, pyIndex L 3 with
        | some src, some dst =>
            if hashable src then Except.ok (outInsert d src dst) else Except.error ()
        | _, _ => Except.error ()) acc = .ok out ∧
        ∀ e ∈ out, ∀ x ∈ e.2, hashable x = true by
    exact gen links hWF [] (by intro e he; simp at he)
  intro ls
  induction ls with
  | nil => intro _ acc hacc; exact ⟨acc, rfl, hacc⟩
  | cons L t ih =>
    intro hh acc hacc
    rcases wellFormed_shape (hh L (List.mem_cons_self _ _)) with ⟨l, s, ss, d, ds, ty, rfl⟩
    have ht : ∀ M ∈ t, wellFormedLinkB M = true := fun M hM => hh M (List.mem_cons_of_mem _ hM)
    have hstep : (∀ e ∈ outInsert acc (.int s) (.int d), ∀ x ∈ e.2, hashable x = true) :=
      outInsert_inv hacc rfl
    rcases ih ht (outInsert acc (.int s) (.int d)) hstep with ⟨out, hout, hinv⟩
    refine ⟨out, ?_, hinv⟩
    rw [List.foldlM_cons]
    simpa [pyIndex, hashable] using hout

theorem outGet_hashable {out : OutMap} {nid : JVal} {dsts : List JVal}
    (hinv : ∀ e ∈ out, ∀ x ∈ e.2, hashable x = true)
    (h : outGet out nid = .ok dsts) : ∀ x ∈ dsts, hashable x = true := by
  unfold outGet at h
  by_cases hn : hashable nid = true
  · rw [if_pos hn] at h
    cases h
    rcases hf : out.find? (fun e => pyEq e.1 nid) with _ | e
    · simp [hf]
    · have := List.mem_of_find?_eq_some hf
      intro x hx
      rw [hf] at hx
      exact hinv e this x hx
  · rw [if_neg hn] at h
    exact absurd h (by simp)

theorem scanDsts_cases (g : UIWorkflow) :
    ∀ (dsts seen nxt : List JVal), (∀ x ∈ dsts, hashable x = true) →
      scanDsts g seen nxt dsts = .ok none ∨
      ∃ seen' nxt', scanDsts g seen nxt dsts = .ok (some (seen', nxt')) ∧
        ∀ x ∈ nxt', x ∈ nxt ∨ x ∈ dsts := by
  intro dsts
  induction dsts with
  | nil =>
    intro seen nxt _
    exact Or.inr ⟨seen, nxt, rfl, fun x hx => Or.inl hx⟩
  | cons dst rest ih =>
    intro seen nxt hd
    have hdst : hashable dst = true := hd dst (List.mem_cons_self _ _)
    have hrest : ∀ x ∈ rest, hashable x = true := fun x hx => hd x (List.mem_cons_of_mem _ hx)
    unfold scanDsts
    rw [if_pos hdst]
    by_cases hmem : seen.any (fun x => pyEq dst x) = true
    · rw [if_pos hmem]
      rcases ih seen nxt hrest with h | ⟨s', n', hs, hn⟩
      · exact Or.inl h
      · exact Or.inr ⟨s', n', hs, fun x hx => (hn x hx).imp id (List.mem_cons_of_mem _)⟩
    · rw [if_neg hmem]
      by_cases hout : isOutputNode g dst = true
      · rw [if_pos hout]
        exact Or.inl rfl
      · rw [if_neg hout]
        rcases ih (seen ++ [dst]) (nxt ++ [dst]) hrest with h | ⟨s', n', hs, hn⟩
        · exact Or.inl h
        · refine Or.inr ⟨s', n', hs, fun x hx => ?_⟩
          rcases hn x hx with h1 | h1
          · rcases List.mem_append.mp h1 with h2 | h2
            · exact Or.inl h2
            · rcases List.mem_singleton.mp h2 with rfl
              exact Or.inr (List.mem_cons_self _ _)
          · exact Or.inr (List.mem_cons_of_mem _ h1)

theorem scanLayer_cases (g : UIWorkflow) {out : OutMap}
    (hinv : ∀ e ∈ out, ∀ x ∈ e.2, hashable x = true) :
    ∀ (q seen nxt : List JVal), (∀ x ∈ q, hashable x = true) →
      (∀ x ∈ nxt, hashable x = true) →
      scanLayer g out seen nxt q = .ok none ∨
      ∃ seen' nxt', scanLayer g out seen nxt q = .ok (some (seen', nxt')) ∧
        ∀ x ∈ nxt', hashable x = true := by
  intro q
  induction q with
  | nil =>
    intro seen nxt _ hnxt
    exact Or.inr ⟨seen, nxt, rfl, hnxt⟩
  | cons nid rest ih =>
    intro seen nxt hq hnxt
    have hnid : hashable nid = true := hq nid (List.mem_cons_self _ _)
    have hrest : ∀ x ∈ rest, hashable x = true := fun x hx => hq x (List.mem_cons_of_mem _ hx)
    have hget : outGet out nid = .ok (((out.find? (fun e => pyEq e.1 nid)).map (·.2)).getD []) := by
      unfold outGet
      rw [if_pos hnid]
    set dsts := ((out.find? (fun e => pyEq e.1 nid)).map (·.2)).getD [] with hdsts
    have hd : ∀ x ∈ dsts, hashable x = true := outGet_hashable hinv hget
    rcases scanDsts_cases g dsts seen nxt hd with h | ⟨s', n', hs, hn⟩
    · left
      unfold scanLayer
      rw [hget]
      rw [except_ok_bind]
      rw [h]
      rfl
    · have hn' : ∀ x ∈ n', hashable x = true := by
        intro x hx
        rcases hn x hx with h1 | h1
        · exact hnxt x h1
        · exact hd x h1
      rcases ih s' n' hrest hn' with h2 | ⟨s'', n'', hs2, hn2⟩
      · left
        unfold scanLayer
        rw [hget]
        rw [except_ok_bind]
        rw [hs]
        exact h2
      · right
        refine ⟨s'', n'', ?_, hn2⟩
        unfold scanLayer
        rw [hget]
        rw [except_ok_bind]
        rw [hs]
        exact hs2

theorem bfsLoop_ok (g : UIWorkflow) {out : OutMap}
    (hinv : ∀ e ∈ out, ∀ x ∈ e.2, hashable x = true) :
    ∀ (fuel : Nat) (seen q : List JVal), (∀ x ∈ q, hashable x = true) →
      ∃ b, bfsLoop g out seen q fuel = .ok b := by
  intro fuel
  induction fuel with
  | zero => intro seen q _; exact ⟨false, rfl⟩
  | succ n ih =>
    intro seen q hq
    unfold bfsLoop
    by_cases hq0 : q.isEmpty = true
    · rw [if_pos hq0]; exact ⟨false, rfl⟩
    · rw [if_neg hq0]
      rcases scanLayer_cases g hinv q seen [] hq (by intro x hx; simp at hx) with
        h | ⟨s', n', hs, hn⟩
      · rw [h]
        exact ⟨true, rfl⟩
      · rw [hs]
        rw [except_ok_bind]
        exact ih s' n' hn

/-- On a graph whose links are all well-formed, `_reaches_output` is total
for any hashable start id. -/
theorem reaches_output_ok {g : UIWorkflow}
    (hWF : ∀ L ∈ g.links, wellFormedLinkB L = true) {start : JVal}
    (hstart : hashable start = true) (maxHops : Nat) :
    ∃ b, reaches_output g start maxHops = .ok b := by
  rcases outBySrc_ok hWF with ⟨out, hout, hinv⟩
  rcases bfsLoop_ok g hinv maxHops [start] [start]
    (by intro x hx; rcases List.mem_singleton.mp hx with rfl; exact hstart) with ⟨b, hb⟩
  refine ⟨b, ?_⟩
  unfold reaches_output
  rw [hout]
  rw [except_ok_bind]
  rw [if_pos hstart]
  exact hb

/-! ## Characterizing sampler selection -/

theorem firstReaching_cases {g : UIWorkflow}
    (hWF : ∀ L ∈ g.links, wellFormedLinkB L = true) :
    ∀ cs : List UINode,
      (∃ c ∈ cs, firstReaching g cs = .ok (some c) ∧
        reaches_output g (.int c.id) = .ok true) ∨
      (firstReaching g cs = .ok none ∧
        ∀ c ∈ cs, reaches_output g (.int c.id) = .ok false) := by
  intro cs
  induction cs with
  | nil => exact Or.inr ⟨rfl, by intro c hc; simp at hc⟩
  | cons c rest ih =>
    rcases @reaches_output_ok g hWF (.int c.id) rfl 200 with ⟨b, hb⟩
    rcases b with _ | _
    · rcases ih with ⟨c', hc', hfr, hr⟩ | ⟨hfr, hall⟩
      · refine Or.inl ⟨c', List.mem_cons_of_mem _ hc', ?_, hr⟩
        unfold firstReaching
        rw [hb, except_ok_bind]
        exact hfr
      · refine Or.inr ⟨?_, ?_⟩
        · unfold firstReaching
          rw [hb, except_ok_bind]
          exact hfr
        · intro d hd
          rcases List.mem_cons.mp hd with rfl | hd2
          · exact hb
          · exact hall d hd2
    · refine Or.inl ⟨c, List.mem_cons_self _ _, ?_, hb⟩
      unfold firstReaching
      rw [hb, except_ok_bind]
      rfl

theorem sampler_with_posneg_cases {g : UIWorkflow}
    (hWF : ∀ L ∈ g.links, wellFormedLinkB L = true) :
    (∃ c ∈ (gNodes g).filter (posnegQualifies g),
        sampler_with_posneg g = .ok (some c) ∧
        reaches_output g (.int c.id) = .ok true) ∨
      (sampler_with_posneg g = .ok ((gNodes g).filter (posnegQualifies g)).head? ∧
        ∀ c ∈ (gNodes g).filter (posnegQualifies g),
          reaches_output g (.int c.id) = .ok false) := by
  rcases firstReaching_cases hWF ((gNodes g).filter (posnegQualifies g)) with
    ⟨c, hc, hfr, hr⟩ | ⟨hfr, hall⟩
  · refine Or.inl ⟨c, hc, ?_, hr⟩
    simp only [sampler_with_posneg]
    rw [hfr, except_ok_bind]
  · refine Or.inr ⟨?_, hall⟩
    simp only [sampler_with_posneg]
    rw [hfr, except_ok_bind]

theorem sampler_with_text_embeds_cases {g : UIWorkflow}
    (hWF : ∀ L ∈ g.links, wellFormedLinkB L = true) :
    (∃ c ∈ (gNodes g).filter (textEmbedsQualifies g),
        sampler_with_text_embeds g = .ok (some c) ∧
        reaches_output g (.int c.id) = .ok true) ∨
      (sampler_with_text_embeds g = .ok ((gNodes g).filter (textEmbedsQualifies g)).head? ∧
        ∀ c ∈ (gNodes g).filter (textEmbedsQualifies g),
          reaches_output g (.int c.id) = .ok false) := by
  rcases firstReaching_cases hWF ((gNodes g).filter (textEmbedsQualifies g)) with
    ⟨c, hc, hfr, hr⟩ | ⟨hfr, hall⟩
  · refine Or.inl ⟨c, hc, ?_, hr⟩
    simp only [sampler_with_text_embeds]
    rw [hfr, except_ok_bind]
  · refine Or.inr ⟨?_, hall⟩
    simp only [sampler_with_text_embeds]
    rw [hfr, except_ok_bind]

theorem sampler_with_posneg_unique {g : UIWorkflow} {n : UINode}
    (hWF : ∀ L ∈ g.links, wellFormedLinkB L = true)
    (hne : (gNodes g).filter (posnegQualifies g) ≠ [])
    (hall : ∀ c ∈ (gNodes g).filter (posnegQualifies g), c = n) :
    sampler_with_posneg g = .ok (some n) := by
  rcases sampler_with_posneg_cases hWF with ⟨c, hc, hs, _⟩ | ⟨hs, _⟩
  · rw [hs, hall c hc]
  · rw [hs]
    rcases he : (gNodes g).filter (posnegQualifies g) with _ | ⟨c, rest⟩
    · exact absurd he hne
    · rw [hall c (by rw [he]; exact List.mem_cons_self _ _)]
      rfl

theorem sampler_with_text_embeds_unique {g : UIWorkflow} {n : UINode}
    (hWF : ∀ L ∈ g.links, wellFormedLinkB L = true)
    (hne : (gNodes g).filter (textEmbedsQualifies g) ≠ [])
    (hall : ∀ c ∈ (gNodes g).filter (textEmbedsQualifies g), c = n) :
    sampler_with_text_embeds g = .ok (some n) := by
  rcases sampler_with_text_embeds_cases hWF with ⟨c, hc, hs, _⟩ | ⟨hs, _⟩
  · rw [hs, hall c hc]
  · rw [hs]
    rcases he : (gNodes g).filter (textEmbedsQualifies g) with _ | ⟨c, rest⟩
    · exact absurd he hne
    · rw [hall c (by rw [he]; exact List.mem_cons_self _ _)]
      rfl

/-! ## Reader and slot-lookup helper lemmas -/

theorem read_text_null (g : UIWorkflow) (which : Option String) :
    read_text_from_node g .null which = .ok .null := by
  unfold read_text_from_node
  rw [if_pos rfl]

theorem inputIndexFrom_isSome {nm : String} :
    ∀ (l : List InputDecl) (i : Nat), (∃ d ∈ l, d.name = some nm) →
      ∃ j, inputIndexFrom nm i l = some j := by
  intro l
  induction l with
  | nil => intro i h; rcases h with ⟨d, hd, _⟩; simp at hd
  | cons d rest ih =>
    intro i h
    unfold inputIndexFrom
    by_cases hd : d.name = some nm
    · rw [if_pos hd]
      exact ⟨i, rfl⟩
    · rw [if_neg hd]
      rcases h with ⟨e, he, hen⟩
      rcases List.mem_cons.mp he with rfl | he2
      · exact absurd hen hd
      · exact ih (i + 1) ⟨e, he2, hen⟩

theorem input_index_of_contains {n : UINode} {nm : String}
    (h : ((n.inputs.getD []).map (·.name)).contains (some nm) = true) :
    ∃ i, input_index n nm = some i := by
  unfold input_index
  apply inputIndexFrom_isSome
  rcases List.mem_map.mp (List.contains_iff_exists_mem_beq.mp h).choose_spec.1 with ⟨d, hd, hdn⟩
  refine ⟨d, hd, ?_⟩
  have hbeq := (List.contains_iff_exists_mem_beq.mp h).choose_spec.2
  rw [hdn]
  exact (by simpa using hbeq : some nm = _).symm

/-- Every value the per-type reader table returns is either absent or the
whitespace-trimmed, non-empty form of some raw text. -/
theorem read_text_normed {g : UIWorkflow} {nid : JVal} {which : Option String}
    {v : JVal} (h : read_text_from_node g nid which = .ok v) :
    v = .null ∨ ∃ u : String, v = .str (pyStrip u) ∧ pyStrip u ≠ "" := by
  by_cases h0 : nid = .null
  · subst h0
    rw [read_text_null] at h
    cases h
    exact Or.inl rfl
  · by_cases hh : hashable nid = true
    · simp only [read_text_from_node, gNodeGet] at h
      rw [if_neg h0, if_pos hh] at h
      simp only [except_ok_bind] at h
      rcases ht : (nodesFind g nid).bind (fun x => x.type) with _ | t
      · rw [ht] at h
        have h' : (Except.ok JVal.null : Except Unit JVal) = Except.ok v := h
        cases h'
        exact Or.inl rfl
      · rw [ht] at h
        have h' : (match encoderReader t with
            | some r => r (((nodesFind g nid).bind fun x => x.widgets_values).getD JVal.null) which
            | none => Except.ok JVal.null) = Except.ok v := h
        rcases her : encoderReader t with _ | r
        · rw [her] at h'
          cases h'
          exact Or.inl rfl
        · rw [her] at h'
          unfold encoderReader at her
          by_cases h1 : t = "CLIPTextEncode"
          · rw [if_pos h1] at her
            cases her
            exact normText_ok_shape h'
          · rw [if_neg h1] at her
            by_cases h2 : t = "TextEncodeQwenImageEdit"
            · rw [if_pos h2] at her
              cases her
              exact normText_ok_shape h'
            · rw [if_neg h2] at her
              by_cases h3 : t = "WanVideoTextEncode"
              · rw [if_pos h3] at her
                cases her
                exact normText_ok_shape h'
              · rw [if_neg h3] at her
                exact absurd her (by simp)
    · have hne : hashable nid = false := by simpa using hh
      simp only [read_text_from_node, gNodeGet] at h
      rw [if_neg h0, if_neg (by simp [hne])] at h
      exact absurd h (fun hc => Except.noConfusion hc)

/-! ## Claim theorems -/

/-- C1 (amended): after `UIGraph` construction, the reverse-edge index maps a
`(destination, slot)` key to the source field of the last link in a single
left-to-right scan whose fields at positions 1/3/4 are readable, whose key
components are hashable, and whose `(L[3], L[4])` equals the key under Python
equality — whether or not its ids are integers.  A node id targeted by no such
link has no entries, so `src_for` returns `None` for it. -/
theorem C1_reverse_index_last_wins (g : UIWorkflow) (d s : JVal) :
    dictFind (inEdge g) (d, s) = specLastIndexedSrc g.links (d, s) ∧
    ((∀ L ∈ g.links, ∀ e, linkEntry L = some e → pyEq e.1.1 d = false) →
      src_for g d s = .null) := by
  constructor
  · exact buildInEdge_eq_specLast g.links (d, s)
  · intro h
    unfold src_for
    have hnone : dictFind (inEdge g) (d, s) = none := by
      have := buildInEdge_eq_specLast g.links (d, s)
      unfold inEdge at this ⊢
      rw [this]
      exact specLast_none_of_no_match (fun L hL e he => by
        simp only [pyEqKey]
        rw [h L hL e he]
        rfl)
    rw [hnone]
    rfl

/-- C1 witness: a concrete graph where node id 999 has no wired inputs and
`src_for` answers `None`. -/
theorem C1_reverse_index_last_wins_witness :
    src_for { nodes := [], links := [JVal.list [.int 0, .int 5, .int 0, .int 10,
      .int 1, .str "t"]] } (.int 999) (.int 0) = .null :=
  (C1_reverse_index_last_wins
    { nodes := [], links := [JVal.list [.int 0, .int 5, .int 0, .int 10, .int 1, .str "t"]] }
    (.int 999) (.int 0)).2 (by decide)

/-- C1 counterexample: the claim as stated says the index maps a key to the
source node id of the last WELL-FORMED link for that key; but after a
well-formed link `[0, 5, 0, 10, 1, "t"]` a later malformed link with the
non-integer source `"bogus"` and the same destination key is still indexed,
so the entry for `(10, 1)` holds `"bogus"`, not the node id `5`. -/
theorem C1_counterexample :
    dictFind (buildInEdge [JVal.list [.int 0, .int 5, .int 0, .int 10, .int 1, .str "t"],
        JVal.list [.int 1, .str "bogus", .int 0, .int 10, .int 1, .str "t"]])
      (.int 10, .int 1) = some (.str "bogus") ∧
    wellFormedLinkB (JVal.list [.int 1, .str "bogus", .int 0, .int 10, .int 1, .str "t"])
      = false ∧
    JVal.str "bogus" ≠ JVal.int 5 := by
  refine ⟨by decide, rfl, by decide⟩

/-- C6 (code bug): the reachability check is not total on every graph — a
link entry of length 2 makes the forward-adjacency build raise (`L[3]` is
read with no exception handler), although the spec requires the traversal to
return `false`, never an error, on pathological input. -/
theorem C6_reaches_output_raises_on_short_link :
    reaches_output { nodes := [], links := [JVal.list [JVal.int 0, JVal.int 1]] }
      (.int 0) = .error () := rfl

/-- C7 (amended): index construction never aborts on any link sequence; a
link entry is skipped (contributing nothing) exactly when reading its fields
raises or its key components are unhashable — an entry with non-integer but
hashable ids is NOT skipped and is indexed under its raw key; every link
whose fields are readable, in particular every well-formed link, has its
destination key present in the index. -/
theorem C7_malformed_links_skipped (links : List JVal) :
    buildInEdge links = buildInEdge (links.filter (fun L => (linkEntry L).isSome)) ∧
    (∀ L ∈ links, ∀ e, linkEntry L = some e →
      ∃ w, dictFind (buildInEdge links) e.1 = some w) := by
  constructor
  · unfold buildInEdge
    suffices gen : ∀ (ls : List JVal) (acc : JDict),
        ls.foldl inEdgeStep acc = (ls.filter (fun L => (linkEntry L).isSome)).foldl inEdgeStep acc by
      exact gen links []
    intro ls
    induction ls with
    | nil => intro acc; rfl
    | cons L t ih =>
      intro acc
      rw [List.foldl_cons]
      by_cases hL : (linkEntry L).isSome = true
      · rw [List.filter_cons_of_pos (by simpa using hL), List.foldl_cons]
        exact ih (inEdgeStep acc L)
      · rw [List.filter_cons_of_neg (by simpa using hL)]
        have hstep : inEdgeStep acc L = acc := by
          rw [inEdgeStep_eq]
          rcases he : linkEntry L with _ | e
          · rfl
          · rw [he] at hL; simp at hL
        rw [hstep]
        exact ih acc
  · intro L hL e he
    rw [buildInEdge_eq_specLast]
    suffices gen : ∀ (ls : List JVal) (a : Option JVal), (L ∈ ls ∨ a.isSome) →
        (ls.foldl (fun a M =>
          match linkEntry M with
          | some e' => if pyEqKey e'.1 e.1 then some e'.2 else a
          | none => a) a).isSome = true by
      rcases ho : specLastIndexedSrc links e.1 with _ | w
      · exfalso
        have := gen links none (Or.inl hL)
        unfold specLastIndexedSrc at ho
        rw [ho] at this
        simp at this
      · exact ⟨w, by rfl⟩
    intro ls
    induction ls with
    | nil =>
      intro a h
      rcases h with h | h
      · simp at h
      · simpa using h
    | cons M t ih =>
      intro a h
      rw [List.foldl_cons]
      rcases h with h | h
      · rcases List.mem_cons.mp h with rfl | h2
        · rw [he]
          exact ih _ (Or.inr (by simp [pyEqKey_refl]))
        · exact ih _ (Or.inl h2)
      · rcases hm : linkEntry M with _ | e'
        · exact ih _ (Or.inr (by simpa using h))
        · by_cases hk : pyEqKey e'.1 e.1 = true
          · exact ih _ (Or.inr (by simp [hk]))
          · exact ih _ (Or.inr (by simp only [hk]; simpa using h))

/-- C7 witness: in a sequence with one malformed short link and one
well-formed link, the short link is skipped and the well-formed one is
indexed. -/
theorem C7_malformed_links_skipped_witness :
    buildInEdge [JVal.list [.int 0, .int 1],
        JVal.list [.int 0, .int 5, .int 0, .int 10, .int 1, .str "t"]] =
      buildInEdge (([JVal.list [.int 0, .int 1],
        JVal.list [.int 0, .int 5, .int 0, .int 10, .int 1, .str "t"]]).filter
          (fun L => (linkEntry L).isSome)) ∧
    ∃ w, dictFind (buildInEdge [JVal.list [.int 0, .int 1],
        JVal.list [.int 0, .int 5, .int 0, .int 10, .int 1, .str "t"]])
      ((.int 10, .int 1)) = some w :=
  ⟨(C7_malformed_links_skipped _).1,
    (C7_malformed_links_skipped [JVal.list [.int 0, .int 1],
        JVal.list [.int 0, .int 5, .int 0, .int 10, .int 1, .str "t"]]).2
      (JVal.list [.int 0, .int 5, .int 0, .int 10, .int 1, .str "t"])
      (by decide) ((.int 10, .int 1), .int 5) (by decide)⟩

/-- C7 counterexample: a link with non-integer (string) ids is NOT skipped —
it contributes an entry to the reverse-edge index, contrary to the claim that
such links contribute no entry. -/
theorem C7_counterexample :
    buildInEdge [JVal.list [.int 0, .str "a", .int 0, .str "b", .int 1, .str "t"]] =
      [((JVal.str "b", JVal.int 1), JVal.str "a")] := by
  decide

/-- C4: among multiple qualifying pos/neg candidates on a well-formed editor
graph, the resolver selects a reachable candidate whenever one reaches an
output-class node (even if it is not first in node order), and otherwise
deterministically selects the first qualifying candidate in node-iteration
order (the model is a pure function, so repeated runs agree by definition). -/
theorem C4_tie_break (g : UIWorkflow)
    (hWF : ∀ L ∈ g.links, wellFormedLinkB L = true)
    (_hmulti : 2 ≤ ((gNodes g).filter (posnegQualifies g)).length) :
    ((∃ c ∈ (gNodes g).filter (posnegQualifies g),
        reaches_output g (.int c.id) = .ok true) →
      ∃ c' ∈ (gNodes g).filter (posnegQualifies g),
        sampler_with_posneg g = .ok (some c') ∧
        reaches_output g (.int c'.id) = .ok true) ∧
    ((∀ c ∈ (gNodes g).filter (posnegQualifies g),
        reaches_output g (.int c.id) = .ok false) →
      sampler_with_posneg g = .ok ((gNodes g).filter (posnegQualifies g)).head?) := by
  constructor
  · intro hex
    rcases sampler_with_posneg_cases hWF with ⟨c, hc, hs, hr⟩ | ⟨hs, hall⟩
    · exact ⟨c, hc, hs, hr⟩
    · rcases hex with ⟨c, hc, hr⟩
      rw [hall c hc] at hr
      exact absurd hr (by simp)
  · intro hallf
    rcases sampler_with_posneg_cases hWF with ⟨c, hc, hs, hr⟩ | ⟨hs, hall⟩
    · rw [hallf c hc] at hr
      exact absurd hr (by simp)
    · exact hs

/-- C4 witness: on `twoSamplerG` the selected sampler is the reachable
second candidate (id 31), not the first in node order. -/
theorem C4_tie_break_witness :
    ∃ c' ∈ (gNodes twoSamplerG).filter (posnegQualifies twoSamplerG),
      sampler_with_posneg twoSamplerG = .ok (some c') ∧
      reaches_output twoSamplerG (.int c'.id) = .ok true :=
  (C4_tie_break twoSamplerG (by decide) (by decide)).1
    ⟨sampB, by decide, by decide⟩

/-- C5: a sampler of an allow-listed type that declares `positive` and
`negative` inputs, with `positive` unwired and `negative` wired to a source
whose read yields text, still qualifies under the mode-1 "at least one wired"
rule; and when it is the graph's only qualifying sampler, the pipeline's
result has `negative` populated with that normalized text and `positive`
absent. -/
theorem C5_partial_wiring (g : UIWorkflow) (n : UINode) (t : String)
    (hWF : ∀ L ∈ g.links, wellFormedLinkB L = true)
    (hmem : n ∈ gNodes g)
    (huniq : ∀ m ∈ gNodes g, posnegQualifies g m = true → m = n)
    (htype : n.type = some "KSampler" ∨ n.type = some "ClownsharKSampler_Beta")
    (hnamesP : (((n.inputs.getD []).map (·.name)).contains (some "positive")) = true)
    (hnamesN : (((n.inputs.getD []).map (·.name)).contains (some "negative")) = true)
    (hposUnwired : src_for g (.int n.id) (slotVal (input_index n "positive")) = .null)
    (hread : read_text_from_node g
        (src_for g (.int n.id) (slotVal (input_index n "negative"))) (some "negative")
      = .ok (.str t)) :
    posnegQualifies g n = true ∧ extractPromptsUI g = .ok (.null, .str t) := by
  have hnegWired : src_for g (.int n.id) (slotVal (input_index n "negative")) ≠ .null := by
    intro hc
    rw [hc, read_text_null] at hread
    exact absurd hread (by simp)
  have hq : posnegQualifies g n = true := by
    have hcond : ((((n.inputs.getD []).map (·.name)).contains (some "positive")) &&
        (((n.inputs.getD []).map (·.name)).contains (some "negative"))) = true := by
      rw [hnamesP, hnamesN]
      rfl
    have hwired : isWired (src_for g (.int n.id) (slotVal (input_index n "negative"))) = true := by
      simp [isWired, hnegWired]
    rcases htype with h | h
    · simp only [posnegQualifies, h]
      rw [if_pos (by decide), if_pos hcond, hwired, Bool.or_true]
    · simp only [posnegQualifies, h]
      rw [if_pos (by decide), if_pos hcond, hwired, Bool.or_true]
  refine ⟨hq, ?_⟩
  rcases input_index_of_contains hnamesP with ⟨pi, hpi⟩
  rcases input_index_of_contains hnamesN with ⟨ni, hni⟩
  have htne : t ≠ "" := by
    rcases read_text_normed hread with h | ⟨u, hu, hune⟩
    · exact absurd h (by simp)
    · rcases hu with rfl | _
      · exact hune
  have hsamp : sampler_with_posneg g = .ok (some n) := by
    apply sampler_with_posneg_unique hWF
    · intro hc
      have : n ∈ (gNodes g).filter (posnegQualifies g) := List.mem_filter.mpr ⟨hmem, hq⟩
      rw [hc] at this
      simp at this
    · intro c hc
      rcases List.mem_filter.mp hc with ⟨hcmem, hcq⟩
      exact huniq c hcmem hcq
  have hoptp : optSlotSrc g n "positive" = .null := by
    unfold optSlotSrc
    rw [hpi]
    rw [hpi] at hposUnwired
    exact hposUnwired
  have hoptn : read_text_from_node g (optSlotSrc g n "negative") (some "negative")
      = .ok (.str t) := by
    unfold optSlotSrc
    rw [hni]
    rw [hni] at hread
    exact hread
  simp only [extractPromptsUI]
  rw [hsamp]
  simp only [except_ok_bind]
  rw [hoptp, read_text_null]
  simp only [except_ok_bind]
  rw [hoptn]
  simp only [except_ok_bind]
  simp [truthy, htne]

/-- C5 witness: on the partial-wiring scenario the sampler qualifies and the
pipeline returns `positive` absent, `negative` populated with the trimmed
encoder text. -/
theorem C5_partial_wiring_witness :
    posnegQualifies negOnlyG negOnlySampler = true ∧
      extractPromptsUI negOnlyG = .ok (.null, .str "neg text") :=
  C5_partial_wiring negOnlyG negOnlySampler "neg text"
    (by decide) (by decide) (by decide) (Or.inl (by decide))
    (by decide) (by decide) (by rfl) (by rfl)

theorem sampler_with_posneg_empty {g : UIWorkflow}
    (h : (gNodes g).filter (posnegQualifies g) = []) :
    sampler_with_posneg g = .ok none := by
  simp only [sampler_with_posneg]
  rw [h]
  rfl

/-- C8 (amended): when no direct pos/neg sampler qualifies and the unique
qualifying aggregated-embedding sampler's wired `text_embeds` source id is
TRUTHY (nonzero) and names a `WanVideoTextEmbedBridge`, the resolver recurses
one level: it resolves the
bridge's own named `positive`/`negative` inputs and returns the values read
from those further-upstream nodes with the matching hints.  The conclusion
depends only on the reads at the bridge's upstream sources, never on any
widget text of the bridge node itself (the witness's bridge carries its own
widget text, which does not surface).  A bridge whose id is 0 is skipped by
the `if embeds_src:` truthiness check and never recursed into — see the
counterexample. -/
theorem C8_bridge_recursion (g : UIWorkflow) (s br : UINode) (bid : Int)
    (pv nv : JVal)
    (hWF : ∀ L ∈ g.links, wellFormedLinkB L = true)
    (hnopos : (gNodes g).filter (posnegQualifies g) = [])
    (hsmem : s ∈ gNodes g)
    (hsq : textEmbedsQualifies g s = true)
    (huniq : ∀ m ∈ gNodes g, textEmbedsQualifies g m = true → m = s)
    (hsrc : optSlotSrc g s "text_embeds" = .int bid)
    (hbid : bid ≠ 0)
    (hbr : nodesFind g (.int bid) = some br)
    (htypeBr : br.type = some "WanVideoTextEmbedBridge")
    (hpread : read_text_from_node g (optSlotSrc g br "positive") (some "positive")
      = .ok pv)
    (hnread : read_text_from_node g (optSlotSrc g br "negative") (some "negative")
      = .ok nv)
    (hyield : (truthy pv || truthy nv) = true) :
    extractPromptsUI g = .ok (pv, nv) := by
  have hsamp : sampler_with_text_embeds g = .ok (some s) := by
    apply sampler_with_text_embeds_unique hWF
    · intro hc
      have : s ∈ (gNodes g).filter (textEmbedsQualifies g) :=
        List.mem_filter.mpr ⟨hsmem, hsq⟩
      rw [hc] at this
      simp at this
    · intro c hc
      rcases List.mem_filter.mp hc with ⟨hcmem, hcq⟩
      exact huniq c hcmem hcq
  simp only [extractPromptsUI]
  rw [sampler_with_posneg_empty hnopos]
  simp only [except_ok_bind]
  simp only [uiStageB]
  rw [hsamp]
  simp only [except_ok_bind]
  rw [hsrc]
  rw [if_pos (by simp [truthy, hbid])]
  have hbr2 : gNodeGet g (.int bid) = .ok (some br) := by
    simp [gNodeGet, hashable, hbr]
  rw [hbr2]
  simp only [except_ok_bind]
  have hbody : (if br.type = some "WanVideoTextEmbedBridge" then
        (do
          let pos ← read_text_from_node g (optSlotSrc g br "positive") (some "positive")
          let neg ← read_text_from_node g (optSlotSrc g br "negative") (some "negative")
          if (truthy pos || truthy neg) = true then Except.ok (pos, neg) else uiStageC g)
      else if br.type = some "WanVideoTextEncode" then
        Except.ok (safe_get (pyOrList br.widgets_values) 0,
          safe_get (pyOrList br.widgets_values) 1)
      else uiStageC g) = Except.ok (pv, nv) := by
    rw [if_pos htypeBr, hpread]
    simp only [except_ok_bind]
    rw [hnread]
    simp only [except_ok_bind]
    rw [if_pos hyield]
  exact hbody

/-- C8 witness: on `bridgeG` the pipeline returns the upstream encoder texts,
not the bridge's own widget text. -/
theorem C8_bridge_recursion_witness :
    extractPromptsUI bridgeG = .ok (.str "posP", .str "negN") :=
  C8_bridge_recursion bridgeG wvSampler bridgeNode 22 (.str "posP") (.str "negN")
    (by decide) (by rfl) (by decide) (by rfl) (by decide) (by rfl) (by decide)
    (by rfl) (by rfl) (by rfl) (by rfl) (by rfl)

/-- C8 counterexample (to the unamended claim): in `bridgeZeroG` the wired
`text_embeds` source IS a `WanVideoTextEmbedBridge` whose upstream positive
read yields "posP", yet — because the bridge's id 0 is falsy — the pipeline
never recurses into it and returns the fallback absent pair instead. -/
theorem C8_counterexample :
    optSlotSrc bridgeZeroG wvSampler0 "text_embeds" = .int 0 ∧
    nodesFind bridgeZeroG (.int 0) = some bridgeNode0 ∧
    bridgeNode0.type = some "WanVideoTextEmbedBridge" ∧
    read_text_from_node bridgeZeroG (optSlotSrc bridgeZeroG bridgeNode0 "positive")
      (some "positive") = .ok (.str "posP") ∧
    extract_prompts (.ui bridgeZeroG) = .ok (.null, .null) ∧
    (JVal.null, JVal.null) ≠ (JVal.str "posP", JVal.str "negN") :=
  ⟨rfl, rfl, rfl, rfl, rfl, by decide⟩

theorem uiStageC_eq (g : UIWorkflow) :
    uiStageC g = .ok ((specStageCOpt g).getD (.null, .null)) := by
  unfold uiStageC specStageCOpt
  cases hf : first_node g ["WanVideoTextEncode"] <;> rfl

theorem uiStageB_eq (g : UIWorkflow) :
    uiStageB g = (match specStageB g with
      | .error e => .error e
      | .ok (some r) => .ok r
      | .ok none => uiStageC g) := by
  simp only [uiStageB, specStageB]
  cases hst : sampler_with_text_embeds g with
  | error e => rfl
  | ok os =>
    cases os with
    | none => rfl
    | some sampler =>
      simp only [except_ok_bind]
      by_cases hsrc : truthy (optSlotSrc g sampler "text_embeds") = true
      · rw [if_pos hsrc, if_pos hsrc]
        cases hget : gNodeGet g (optSlotSrc g sampler "text_embeds") with
        | error e => rfl
        | ok o =>
          cases o with
          | none => rfl
          | some srcNode =>
            simp only [except_ok_bind]
            have hred : (if srcNode.type = some "WanVideoTextEmbedBridge" then
                  (do
                    let pos ← read_text_from_node g (optSlotSrc g srcNode "positive")
                      (some "positive")
                    let neg ← read_text_from_node g (optSlotSrc g srcNode "negative")
                      (some "negative")
                    if (truthy pos || truthy neg) = true then Except.ok (pos, neg)
                    else uiStageC g)
                else if srcNode.type = some "WanVideoTextEncode" then
                  Except.ok (safe_get (pyOrList srcNode.widgets_values) 0,
                    safe_get (pyOrList srcNode.widgets_values) 1)
                else uiStageC g) =
                (match (if srcNode.type = some "WanVideoTextEmbedBridge" then
                    (do
                      let pos ← read_text_from_node g (optSlotSrc g srcNode "positive")
                        (some "positive")
                      let neg ← read_text_from_node g (optSlotSrc g srcNode "negative")
                        (some "negative")
                      if (truthy pos || truthy neg) = true then Except.ok (some (pos, neg))
                      else Except.ok none)
                  else if srcNode.type = some "WanVideoTextEncode" then
                    Except.ok (some (safe_get (pyOrList srcNode.widgets_values) 0,
                      safe_get (pyOrList srcNode.widgets_values) 1))
                  else Except.ok none : Except Unit (Option (JVal × JVal))) with
                | Except.error e => Except.error e
                | Except.ok (some r) => Except.ok r
                | Except.ok none => uiStageC g) := by
              by_cases hbr : srcNode.type = some "WanVideoTextEmbedBridge"
              · rw [if_pos hbr, if_pos hbr]
                cases hp : read_text_from_node g (optSlotSrc g srcNode "positive")
                    (some "positive") with
                | error e => rfl
                | ok pos =>
                  simp only [except_ok_bind]
                  cases hn : read_text_from_node g (optSlotSrc g srcNode "negative")
                      (some "negative") with
                  | error e => rfl
                  | ok neg =>
                    simp only [except_ok_bind]
                    by_cases hc : (truthy pos || truthy neg) = true
                    · rw [if_pos hc, if_pos hc]
                    · rw [if_neg hc, if_neg hc]
              · rw [if_neg hbr, if_neg hbr]
                by_cases hw : srcNode.type = some "WanVideoTextEncode"
                · rw [if_pos hw, if_pos hw]
                · rw [if_neg hw, if_neg hw]
            exact hred
      · rw [if_neg hsrc, if_neg hsrc]

theorem stageBC_eq (g : UIWorkflow) :
    uiStageB g = (specStageB g >>= fun r =>
      match r with
      | some r => Except.ok r
      | none => Except.ok ((specStageCOpt g).getD (.null, .null))) := by
  rw [uiStageB_eq g]
  cases hb : specStageB g with
  | error e => rfl
  | ok os =>
    cases os with
    | none =>
      rw [except_ok_bind]
      exact uiStageC_eq g
    | some r => rfl

/-- C2 (amended): on editor-shape graphs the pipeline tries the strategies in
the fixed priority order, and a stage's result is returned exactly when that
stage yields: the direct pos/neg stage and the bridge sub-path of the
aggregated stage yield only a result with at least one non-absent side, but
the `WanVideoTextEncode` sub-paths (aggregated stage resolving to a
dual-prompt encoder, and the standalone fallback) yield unconditionally once
their node is found — even an absent/absent pair — and absent/absent is
returned when no stage yields. -/
theorem C2_pipeline_priority (g : UIWorkflow) :
    extractPromptsUI g = specPipeline g := by
  simp only [extractPromptsUI, specPipeline, specStageA]
  cases hs : sampler_with_posneg g with
  | error e => rfl
  | ok os =>
    cases os with
    | none =>
      simp only [except_ok_bind]
      exact stageBC_eq g
    | some sampler =>
      simp only [except_ok_bind]
      cases hp : read_text_from_node g (optSlotSrc g sampler "positive")
          (some "positive") with
      | error e => rfl
      | ok pos =>
        simp only [except_ok_bind]
        cases hn : read_text_from_node g (optSlotSrc g sampler "negative")
            (some "negative") with
        | error e => rfl
        | ok neg =>
          simp only [except_ok_bind]
          by_cases hc : (truthy pos || truthy neg) = true
          · rw [if_pos hc, if_pos hc]
            rfl
          · rw [if_neg hc, if_neg hc]
            rw [except_ok_bind]
            exact stageBC_eq g

/-- C2 counterexample: on `emptyEmbedsG` the aggregated-embedding strategy
resolves to a `WanVideoTextEncode` source that yields no non-absent value,
yet the pipeline returns that stage's absent/absent result instead of
proceeding to the standalone fallback, which would yield "hello" — so a
strategy's result is returned even when it yields nothing, and absent/absent
is returned although a later strategy yields a value. -/
theorem C2_counterexample :
    extract_prompts (.ui emptyEmbedsG) = .ok (.null, .null) ∧
    uiStageC emptyEmbedsG = .ok (.str "hello", .null) :=
  ⟨rfl, rfl⟩

/-- C3 (amended): values produced through the wiring-based named-input reads
(the per-type reader table used by the direct pos/neg stage and the bridge
stage) are normalized — treated as text, stripped of surrounding whitespace,
collapsed to absent when empty — and a direct-stage yield is returned by the
pipeline in exactly that normalized form; the `WanVideoTextEncode` widget
fallbacks and the flat/API path, by contrast, return raw values without this
normalization (see the counterexample). -/
theorem C3_normalization (g : UIWorkflow) (nid : JVal) (which : Option String)
    (v : JVal) (r : JVal × JVal) :
    (read_text_from_node g nid which = .ok v → NormedVal v) ∧
    (specStageA g = .ok (some r) →
      extractPromptsUI g = .ok r ∧ NormedVal r.1 ∧ NormedVal r.2) := by
  constructor
  · intro h
    exact read_text_normed h
  · intro hA
    simp only [specStageA] at hA
    simp only [extractPromptsUI]
    cases hs : sampler_with_posneg g with
    | error e =>
      rw [hs] at hA
      exact absurd hA (fun hc => Except.noConfusion hc)
    | ok os =>
      rw [hs] at hA
      cases os with
      | none => exact absurd hA (fun hc => Option.noConfusion (Except.ok.inj hc))
      | some sampler =>
        simp only [except_ok_bind] at hA ⊢
        cases hp : read_text_from_node g (optSlotSrc g sampler "positive")
            (some "positive") with
        | error e =>
          rw [hp] at hA
          exact absurd hA (fun hc => Except.noConfusion hc)
        | ok pos =>
          rw [hp] at hA
          simp only [except_ok_bind] at hA
          cases hn : read_text_from_node g (optSlotSrc g sampler "negative")
              (some "negative") with
          | error e =>
            rw [hn] at hA
            exact absurd hA (fun hc => Except.noConfusion hc)
          | ok neg =>
            rw [hn] at hA
            simp only [except_ok_bind] at hA
            by_cases hc : (truthy pos || truthy neg) = true
            · rw [if_pos hc] at hA
              simp only [except_ok_bind]
              rw [if_pos hc]
              have hr : r = (pos, neg) := by
                have := Except.ok.inj hA
                exact (Option.some.inj this).symm
              subst hr
              exact ⟨rfl, read_text_normed hp, read_text_normed hn⟩
            · rw [if_neg hc] at hA
              exact absurd hA (fun hcc => Option.noConfusion (Except.ok.inj hcc))

/-- C3 witness: on the partial-wiring scenario the direct stage yields
`(absent, "neg text")`, the pipeline returns it, and both sides are in
normalized form. -/
theorem C3_normalization_witness :
    extractPromptsUI negOnlyG = .ok (.null, .str "neg text") ∧
      NormedVal JVal.null ∧ NormedVal (.str "neg text") :=
  (C3_normalization negOnlyG (.int 9) (some "negative") (.str "neg text")
    (.null, .str "neg text")).2 (by rfl)

/-- C3 counterexample: via the standalone `WanVideoTextEncode` fallback the
pipeline surfaces the raw widget value `"  "` — a whitespace-only string
(its strip is empty) — as the positive prompt, so returned values are not
always trimmed/collapsed. -/
theorem C3_counterexample :
    extract_prompts (.ui wsG) = .ok (.str "  ", .null) ∧ pyStrip "  " = "" :=
  ⟨rfl, rfl⟩

theorem apiSecondScan_no_qwen :
    ∀ entries : List (String × JVal),
      (∀ e ∈ entries, isClass e.2 "TextEncodeQwenImageEdit" = false) →
      apiSecondScan entries = .ok (.null, .null) := by
  intro entries
  induction entries with
  | nil => intro _; rfl
  | cons e rest ih =>
    intro h
    rcases e with ⟨k, node⟩
    have hcls : isClass node "TextEncodeQwenImageEdit" = false :=
      h (k, node) (List.mem_cons_self _ _)
    unfold apiSecondScan
    rw [if_neg (by simp [hcls])]
    exact ih (fun e he => h e (List.mem_cons_of_mem _ he))

theorem apiSecondScan_none_of_no_prompt :
    ∀ entries : List (String × JVal),
      (∀ e ∈ entries, isClass e.2 "TextEncodeQwenImageEdit" = true →
        ∃ kvs2 ikvs2, e.2 = .obj kvs2 ∧
          (objGet kvs2 "inputs").getD (.obj []) = .obj ikvs2) →
      entries.find? qwenWithPrompt = none →
      apiSecondScan entries = .ok (.null, .null) := by
  intro entries
  induction entries with
  | nil => intro _ _; rfl
  | cons e rest ih =>
    intro hrec hfind
    rcases e with ⟨k', node'⟩
    by_cases hq : qwenWithPrompt (k', node') = true
    · rw [List.find?_cons_of_pos _ hq] at hfind
      exact absurd hfind (by simp)
    · rw [List.find?_cons_of_neg _ hq] at hfind
      have hqf : qwenWithPrompt (k', node') = false := by simpa using hq
      by_cases hcls : isClass node' "TextEncodeQwenImageEdit" = true
      · obtain ⟨kvs2, ikvs2, hn, hinp2⟩ :=
          hrec (k', node') (List.mem_cons_self _ _) hcls
        subst hn
        have hany : ikvs2.any (fun p => p.1 = "prompt") = false := by
          have h1 := hqf
          simp only [qwenWithPrompt, hcls, Bool.true_and] at h1
          rw [hinp2] at h1
          exact h1
        have hcont : pyContains "prompt" (JVal.obj ikvs2) = .ok false := by
          have h0 : (Except.ok (ikvs2.any fun p => decide (p.1 = "prompt")) :
              Except Unit Bool) = Except.ok false := by rw [hany]
          exact h0
        unfold apiSecondScan
        rw [if_pos hcls]
        have hred : (do
              let c ← pyContains "prompt" ((objGet kvs2 "inputs").getD (JVal.obj []))
              if c = true then
                match (objGet kvs2 "inputs").getD (JVal.obj []) with
                | JVal.obj ikvs3 =>
                    Except.ok ((objGet ikvs3 "prompt").getD JVal.null, JVal.null)
                | _ => (Except.error () : Except Unit (JVal × JVal))
              else apiSecondScan rest) = Except.ok (JVal.null, JVal.null) := by
          rw [hinp2, hcont]
          simp only [except_ok_bind]
          rw [if_neg (by simp)]
          exact ih (fun e he hc => hrec e (List.mem_cons_of_mem _ he) hc) hfind
        exact hred
      · unfold apiSecondScan
        rw [if_neg hcls]
        exact ih (fun e he hc => hrec e (List.mem_cons_of_mem _ he) hc) hfind

theorem apiSecondScan_first_prompt :
    ∀ (entries : List (String × JVal)) (k : String)
      (kvs ikvs : List (String × JVal)),
      (∀ e ∈ entries, isClass e.2 "TextEncodeQwenImageEdit" = true →
        ∃ kvs2 ikvs2, e.2 = .obj kvs2 ∧
          (objGet kvs2 "inputs").getD (.obj []) = .obj ikvs2) →
      entries.find? qwenWithPrompt = some (k, .obj kvs) →
      (objGet kvs "inputs").getD (.obj []) = .obj ikvs →
      apiSecondScan entries = .ok ((objGet ikvs "prompt").getD .null, .null) := by
  intro entries
  induction entries with
  | nil => intro k kvs ikvs _ hfind _; exact absurd hfind (by simp)
  | cons e rest ih =>
    intro k kvs ikvs hrec hfind hinp
    rcases e with ⟨k', node'⟩
    by_cases hq : qwenWithPrompt (k', node') = true
    · rw [List.find?_cons_of_pos _ hq] at hfind
      have hk : k' = k ∧ node' = .obj kvs := by
        have := Option.some.inj hfind
        exact ⟨congrArg Prod.fst this, congrArg Prod.snd this⟩
      rcases hk with ⟨rfl, rfl⟩
      have h1 := hq
      simp only [qwenWithPrompt, Bool.and_eq_true] at h1
      obtain ⟨hcls, h2⟩ := h1
      have hany : ikvs.any (fun p => p.1 = "prompt") = true := by
        rw [hinp] at h2
        exact h2
      have hcont : pyContains "prompt" (JVal.obj ikvs) = .ok true := by
        have h0 : (Except.ok (ikvs.any fun p => decide (p.1 = "prompt")) :
            Except Unit Bool) = Except.ok true := by rw [hany]
        exact h0
      unfold apiSecondScan
      rw [if_pos hcls]
      have hred : (do
            let c ← pyContains "prompt" ((objGet kvs "inputs").getD (JVal.obj []))
            if c = true then
              match (objGet kvs "inputs").getD (JVal.obj []) with
              | JVal.obj ikvs3 =>
                  Except.ok ((objGet ikvs3 "prompt").getD JVal.null, JVal.null)
              | _ => (Except.error () : Except Unit (JVal × JVal))
            else apiSecondScan rest) =
          Except.ok ((objGet ikvs "prompt").getD JVal.null, JVal.null) := by
        rw [hinp, hcont]
        simp only [except_ok_bind]
        simp
      exact hred
    · rw [List.find?_cons_of_neg _ hq] at hfind
      have hqf : qwenWithPrompt (k', node') = false := by simpa using hq
      by_cases hcls : isClass node' "TextEncodeQwenImageEdit" = true
      · obtain ⟨kvs2, ikvs2, hn, hinp2⟩ :=
          hrec (k', node') (List.mem_cons_self _ _) hcls
        subst hn
        have hany : ikvs2.any (fun p => p.1 = "prompt") = false := by
          have h1 := hqf
          simp only [qwenWithPrompt, hcls, Bool.true_and] at h1
          rw [hinp2] at h1
          exact h1
        have hcont : pyContains "prompt" (JVal.obj ikvs2) = .ok false := by
          have h0 : (Except.ok (ikvs2.any fun p => decide (p.1 = "prompt")) :
              Except Unit Bool) = Except.ok false := by rw [hany]
          exact h0
        unfold apiSecondScan
        rw [if_pos hcls]
        have hred : (do
              let c ← pyContains "prompt" ((objGet kvs2 "inputs").getD (JVal.obj []))
              if c = true then
                match (objGet kvs2 "inputs").getD (JVal.obj []) with
                | JVal.obj ikvs3 =>
                    Except.ok ((objGet ikvs3 "prompt").getD JVal.null, JVal.null)
                | _ => (Except.error () : Except Unit (JVal × JVal))
              else apiSecondScan rest) =
            Except.ok ((objGet ikvs "prompt").getD JVal.null, JVal.null) := by
          rw [hinp2, hcont]
          simp only [except_ok_bind]
          rw [if_neg (by simp)]
          exact ih k kvs ikvs (fun e he hc => hrec e (List.mem_cons_of_mem _ he) hc)
            hfind hinp
        exact hred
      · unfold apiSecondScan
        rw [if_neg hcls]
        exact ih k kvs ikvs (fun e he hc => hrec e (List.mem_cons_of_mem _ he) hc)
          hfind hinp

/-- C9 (amended): for a flat/API-shape document, if some entry has the
dual-prompt encoder class, the first such entry's `positive_prompt` and
`negative_prompt` input fields are returned verbatim — raw, with NO
normalization (provided its `inputs` field reads as a record; a non-record
`inputs` raises).  Otherwise — provided every single-prompt-editor entry's
`inputs` reads as a record — the scan passes over single-prompt-editor
entries without a `prompt` input field: the first one WITH such a field has
it returned verbatim as positive with negative absent, and if no entry
carries one (in particular if there is no such entry at all) the result is
absent/absent. -/
theorem C9_api_shape (entries : List (String × JVal)) (k : String)
    (kvs ikvs : List (String × JVal)) :
    ((entries.find? (fun e => isClass e.2 "WanVideoTextEncode") = some (k, .obj kvs)) →
      ((objGet kvs "inputs").getD (.obj []) = .obj ikvs) →
      extractPromptsAPI entries = .ok ((objGet ikvs "positive_prompt").getD .null,
        (objGet ikvs "negative_prompt").getD .null)) ∧
    ((entries.find? (fun e => isClass e.2 "WanVideoTextEncode") = none) →
      (∀ e ∈ entries, isClass e.2 "TextEncodeQwenImageEdit" = true →
        ∃ kvs2 ikvs2, e.2 = .obj kvs2 ∧
          (objGet kvs2 "inputs").getD (.obj []) = .obj ikvs2) →
      (entries.find? qwenWithPrompt = none) →
      extractPromptsAPI entries = .ok (.null, .null)) ∧
    ((entries.find? (fun e => isClass e.2 "WanVideoTextEncode") = none) →
      (∀ e ∈ entries, isClass e.2 "TextEncodeQwenImageEdit" = true →
        ∃ kvs2 ikvs2, e.2 = .obj kvs2 ∧
          (objGet kvs2 "inputs").getD (.obj []) = .obj ikvs2) →
      (entries.find? qwenWithPrompt = some (k, .obj kvs)) →
      ((objGet kvs "inputs").getD (.obj []) = .obj ikvs) →
      extractPromptsAPI entries = .ok ((objGet ikvs "prompt").getD .null, .null)) := by
  refine ⟨?_, ?_, ?_⟩
  · intro hfind hinp
    unfold extractPromptsAPI
    rw [hfind]
    have hred : (match (objGet kvs "inputs").getD (JVal.obj []) with
        | JVal.obj ikvs2 =>
            Except.ok ((objGet ikvs2 "positive_prompt").getD JVal.null,
              (objGet ikvs2 "negative_prompt").getD JVal.null)
        | _ => (Except.error () : Except Unit (JVal × JVal))) =
        Except.ok ((objGet ikvs "positive_prompt").getD JVal.null,
          (objGet ikvs "negative_prompt").getD JVal.null) := by
      rw [hinp]
    exact hred
  · intro hfind hrec hq
    unfold extractPromptsAPI
    rw [hfind]
    exact apiSecondScan_none_of_no_prompt entries hrec hq
  · intro hfind hrec hq hinp
    unfold extractPromptsAPI
    rw [hfind]
    exact apiSecondScan_first_prompt entries k kvs ikvs hrec hq hinp

/-- C9 witness: the dual-prompt entry's fields come back exactly as stored,
including their surrounding whitespace; and on a document whose first
single-prompt-editor entry lacks a `prompt` input, the second entry's field
is returned. -/
theorem C9_api_shape_witness :
    extractPromptsAPI apiDualDoc = .ok (.str "  padded  ", .str "bad") ∧
    extractPromptsAPI apiQwenDoc = .ok (.str "hi", .null) :=
  ⟨(C9_api_shape apiDualDoc "16"
      [("class_type", .str "WanVideoTextEncode"),
       ("inputs", .obj [("positive_prompt", .str "  padded  "),
                        ("negative_prompt", .str "bad")])]
      [("positive_prompt", .str "  padded  "), ("negative_prompt", .str "bad")]).1
      (by rfl) (by rfl),
   (C9_api_shape apiQwenDoc "2"
      [("class_type", .str "TextEncodeQwenImageEdit"),
       ("inputs", .obj [("prompt", .str "hi")])]
      [("prompt", .str "hi")]).2.2
      (by rfl)
      (by
        intro e he hc
        rcases List.mem_cons.mp he with h1 | h2
        · subst h1
          exact ⟨[("class_type", .str "TextEncodeQwenImageEdit"),
                  ("inputs", .obj [])], [], rfl, rfl⟩
        · have h3 := List.mem_singleton.mp h2
          subst h3
          exact ⟨[("class_type", .str "TextEncodeQwenImageEdit"),
                  ("inputs", .obj [("prompt", .str "hi")])],
                 [("prompt", .str "hi")], rfl, rfl⟩)
      (by rfl) (by rfl)⟩

/-- C9 counterexample: the flat-shape path performs NO normalization — a
whitespace-only `positive_prompt` field (whose strip is empty, so
normalization would collapse it to absent) is returned as-is. -/
theorem C9_counterexample :
    extract_prompts (.api apiWsDoc) = .ok (.str "  ", .null) ∧ pyStrip "  " = "" :=
  ⟨rfl, rfl⟩

theorem normText_ok_of_textLike {v : JVal} (h : textLike v = true) :
    ∃ r, normText v = .ok r := by
  unfold normText
  rcases v with _ | b | i | s | xs | xs
  · exact ⟨.null, rfl⟩
  · simp only [textLike, truthy, Bool.not_eq_true'] at h
    rw [h]
    exact ⟨.null, rfl⟩
  · simp only [textLike, truthy, Bool.not_eq_true', bne_eq_false_iff_eq] at h
    subst h
    exact ⟨.null, rfl⟩
  · by_cases hs : pyStrip s = ""
    · refine ⟨.null, ?_⟩
      rcases ht : truthy (.str s) with _ | _ <;>
        simp [ht, hs, show pyStrip "" = "" from rfl]
    · refine ⟨.str (pyStrip s), ?_⟩
      have hsne : s ≠ "" := by
        intro hc
        subst hc
        exact hs rfl
      have ht : truthy (.str s) = true := by
        simp only [truthy]
        exact decide_eq_true hsne
      simp [ht, hs]
  · simp only [textLike, truthy, Bool.not_eq_true'] at h
    have : xs = [] := by simpa using h
    subst this
    exact ⟨.null, rfl⟩
  · simp only [textLike, truthy, Bool.not_eq_true'] at h
    have : xs = [] := by simpa using h
    subst this
    exact ⟨.null, rfl⟩

theorem read_text_eq (g : UIWorkflow) (nid : JVal) (which : Option String)
    (h0 : nid ≠ .null) (hh : hashable nid = true) :
    read_text_from_node g nid which =
      (match (nodesFind g nid).bind (fun x => x.type) with
       | some t =>
           match encoderReader t with
           | some r =>
               r (((nodesFind g nid).bind (fun x => x.widgets_values)).getD .null) which
           | none => .ok .null
       | none => .ok .null) := by
  simp only [read_text_from_node, gNodeGet]
  rw [if_neg h0, if_pos hh]
  rw [except_ok_bind]

/-- `self.nodes.get` hashes its key, so the reader raises `TypeError` on an
unhashable id (which, being a list or dict, is never the `None` value the
first guard checks for). -/
theorem read_text_err_of_unhashable (g : UIWorkflow) (which : Option String)
    {nid : JVal} (hh : hashable nid = false) :
    read_text_from_node g nid which = .error () := by
  have h0 : nid ≠ .null := by
    intro hc
    subst hc
    exact absurd hh (by simp [hashable])
  simp only [read_text_from_node, gNodeGet]
  rw [if_neg h0, if_neg (by simp [hh])]
  rfl

theorem encoderReader_spec {t : String} {r : JVal → Option String → Except Unit JVal}
    (her : encoderReader t = some r) (w : JVal) (which : Option String) :
    r w which = normText (safe_get w (readerPos t which)) := by
  unfold encoderReader at her
  by_cases h1 : t = "CLIPTextEncode"
  · rw [if_pos h1] at her
    cases her
    subst h1
    rfl
  · rw [if_neg h1] at her
    by_cases h2 : t = "TextEncodeQwenImageEdit"
    · rw [if_pos h2] at her
      cases her
      subst h2
      rfl
    · rw [if_neg h2] at her
      by_cases h3 : t = "WanVideoTextEncode"
      · rw [if_pos h3] at her
        cases her
        subst h3
        by_cases hw : which = some "negative"
        · simp [readerPos, hw]
        · simp [readerPos, hw]
      · rw [if_neg h3] at her
        exact absurd her (by simp)

/-- C10 (amended): for a HASHABLE id, the encoder text reader returns absent
— without raising — when the id is the absent value, when no node with that
id exists, when the node's type is missing or has no registered extraction
rule, when `widgets_values` is missing or not a list, or when the rule's
widget position is out of range; and it raises no error whenever every widget
value of the consulted list is text or falsy.  On an UNHASHABLE id (a list or
dict), `self.nodes.get(nid)` raises `TypeError`, which propagates out.  (It
can also raise on a truthy non-string widget value at the consulted position
— see the counterexample.) -/
theorem C10_reader_absent_cases (g : UIWorkflow) (nid : JVal)
    (which : Option String) (n : UINode) (t : String) (xs : List JVal) :
    (read_text_from_node g .null which = .ok .null) ∧
    (nid ≠ .null → hashable nid = true → nodesFind g nid = none →
      read_text_from_node g nid which = .ok .null) ∧
    (nid ≠ .null → hashable nid = true → nodesFind g nid = some n →
      n.type = none → read_text_from_node g nid which = .ok .null) ∧
    (nid ≠ .null → hashable nid = true → nodesFind g nid = some n →
      n.type = some t → encoderReader t = none →
      read_text_from_node g nid which = .ok .null) ∧
    (nid ≠ .null → hashable nid = true → nodesFind g nid = some n →
      (∀ ys, n.widgets_values ≠ some (.list ys)) →
      read_text_from_node g nid which = .ok .null) ∧
    (nid ≠ .null → hashable nid = true → nodesFind g nid = some n →
      n.type = some t → n.widgets_values = some (.list xs) →
      xs.length ≤ readerPos t which →
      read_text_from_node g nid which = .ok .null) ∧
    (nid ≠ .null → hashable nid = true → nodesFind g nid = some n →
      n.widgets_values = some (.list xs) → (∀ v ∈ xs, textLike v = true) →
      ∃ r, read_text_from_node g nid which = .ok r) ∧
    (hashable nid = false → read_text_from_node g nid which = .error ()) := by
  refine ⟨read_text_null g which, ?_, ?_, ?_, ?_, ?_, ?_, ?_⟩
  · intro h0 hh hget
    have hbt : (nodesFind g nid).bind (fun x => x.type) = none := by
      rw [hget]
      rfl
    rw [read_text_eq g nid which h0 hh, hbt]
  · intro h0 hh hget htype
    have hbt : (nodesFind g nid).bind (fun x => x.type) = n.type := by
      rw [hget]
      rfl
    have hbw : ((nodesFind g nid).bind (fun x => x.widgets_values)).getD .null
        = (n.widgets_values).getD .null := by
      rw [hget]
      rfl
    rw [read_text_eq g nid which h0 hh, hbt, hbw]
    have hred : (match n.type with
        | some t' =>
            match encoderReader t' with
            | some r => r ((n.widgets_values).getD .null) which
            | none => (Except.ok JVal.null : Except Unit JVal)
        | none => Except.ok JVal.null) = Except.ok JVal.null := by
      rw [htype]
    exact hred
  · intro h0 hh hget htype her
    have hbt : (nodesFind g nid).bind (fun x => x.type) = n.type := by
      rw [hget]
      rfl
    have hbw : ((nodesFind g nid).bind (fun x => x.widgets_values)).getD .null
        = (n.widgets_values).getD .null := by
      rw [hget]
      rfl
    rw [read_text_eq g nid which h0 hh, hbt, hbw]
    have hred : (match n.type with
        | some t' =>
            match encoderReader t' with
            | some r => r ((n.widgets_values).getD .null) which
            | none => (Except.ok JVal.null : Except Unit JVal)
        | none => Except.ok JVal.null) = Except.ok JVal.null := by
      rw [htype]
      have h2 : (match encoderReader t with
          | some r => r ((n.widgets_values).getD .null) which
          | none => (Except.ok JVal.null : Except Unit JVal)) = Except.ok JVal.null := by
        rw [her]
      exact h2
    exact hred
  · intro h0 hh hget hw
    have hbt : (nodesFind g nid).bind (fun x => x.type) = n.type := by
      rw [hget]
      rfl
    have hbw : ((nodesFind g nid).bind (fun x => x.widgets_values)).getD .null
        = (n.widgets_values).getD .null := by
      rw [hget]
      rfl
    rw [read_text_eq g nid which h0 hh, hbt, hbw]
    have hsg : ∀ i, safe_get ((n.widgets_values).getD .null) i = .null := by
      intro i
      rcases hwv : n.widgets_values with _ | v
      · rfl
      · rcases v with _ | b | j | s | ys | ys
        · rfl
        · rfl
        · rfl
        · rfl
        · exact absurd hwv (hw ys)
        · rfl
    have hred : (match n.type with
        | some t' =>
            match encoderReader t' with
            | some r => r ((n.widgets_values).getD .null) which
            | none => (Except.ok JVal.null : Except Unit JVal)
        | none => Except.ok JVal.null) = Except.ok JVal.null := by
      rcases htp : n.type with _ | t'
      · rfl
      · have h2 : (match encoderReader t' with
            | some r => r ((n.widgets_values).getD .null) which
            | none => (Except.ok JVal.null : Except Unit JVal)) = Except.ok JVal.null := by
          rcases her : encoderReader t' with _ | r
          · rfl
          · have h3 : r ((n.widgets_values).getD .null) which = Except.ok JVal.null := by
              rw [encoderReader_spec her, hsg]
              rfl
            exact h3
        exact h2
    exact hred
  · intro h0 hh hget htype hwv hlen
    have hbt : (nodesFind g nid).bind (fun x => x.type) = n.type := by
      rw [hget]
      rfl
    have hbw : ((nodesFind g nid).bind (fun x => x.widgets_values)).getD .null
        = (n.widgets_values).getD .null := by
      rw [hget]
      rfl
    rw [read_text_eq g nid which h0 hh, hbt, hbw]
    have hsg : safe_get ((n.widgets_values).getD .null) (readerPos t which) = .null := by
      rw [hwv]
      simp only [Option.getD_some, safe_get]
      rw [List.get?_eq_none.mpr hlen]
      rfl
    have hred : (match n.type with
        | some t' =>
            match encoderReader t' with
            | some r => r ((n.widgets_values).getD .null) which
            | none => (Except.ok JVal.null : Except Unit JVal)
        | none => Except.ok JVal.null) = Except.ok JVal.null := by
      rw [htype]
      have h2 : (match encoderReader t with
          | some r => r ((n.widgets_values).getD .null) which
          | none => (Except.ok JVal.null : Except Unit JVal)) = Except.ok JVal.null := by
        rcases her : encoderReader t with _ | r
        · rfl
        · have h3 : r ((n.widgets_values).getD .null) which = Except.ok JVal.null := by
            rw [encoderReader_spec her, hsg]
            rfl
          exact h3
      exact h2
    exact hred
  · intro h0 hh hget hwv htl
    have hbt : (nodesFind g nid).bind (fun x => x.type) = n.type := by
      rw [hget]
      rfl
    have hbw : ((nodesFind g nid).bind (fun x => x.widgets_values)).getD .null
        = (n.widgets_values).getD .null := by
      rw [hget]
      rfl
    rw [read_text_eq g nid which h0 hh, hbt, hbw]
    have hsg : ∀ i, textLike (safe_get ((n.widgets_values).getD .null) i) = true := by
      intro i
      rw [hwv]
      simp only [Option.getD_some, safe_get]
      rcases hx : xs.get? i with _ | v
      · rfl
      · exact htl v (List.get?_mem hx)
    have hred : ∃ r, (match n.type with
        | some t' =>
            match encoderReader t' with
            | some r => r ((n.widgets_values).getD .null) which
            | none => (Except.ok JVal.null : Except Unit JVal)
        | none => Except.ok JVal.null) = Except.ok r := by
      rcases htp : n.type with _ | t'
      · exact ⟨.null, rfl⟩
      · have h2 : ∃ r2, (match encoderReader t' with
            | some r => r ((n.widgets_values).getD .null) which
            | none => (Except.ok JVal.null : Except Unit JVal)) = Except.ok r2 := by
          rcases her : encoderReader t' with _ | r
          · exact ⟨.null, rfl⟩
          · have h3 : ∃ r2, r ((n.widgets_values).getD .null) which = Except.ok r2 := by
              rw [encoderReader_spec her]
              exact normText_ok_of_textLike (hsg (readerPos t' which))
            rcases h3 with ⟨r2, h3⟩
            exact ⟨r2, h3⟩
        rcases h2 with ⟨r2, h2⟩
        exact ⟨r2, h2⟩
    rcases hred with ⟨r, hr⟩
    exact ⟨r, hr⟩
  · intro hh
    exact read_text_err_of_unhashable g which hh

/-- C10 witness: a hashable missing id yields absent, a reader over all-text
widget values returns without error, and an unhashable (list) id raises. -/
theorem C10_reader_absent_cases_witness :
    read_text_from_node wsG (.int 99) none = .ok .null ∧
    (∃ r, read_text_from_node negOnlyG (.int 9) (some "negative") = .ok r) ∧
    read_text_from_node wsG (.list []) none = .error () :=
  ⟨(C10_reader_absent_cases wsG (.int 99) none wsWte "X" []).2.1
      (by decide) rfl rfl,
   (C10_reader_absent_cases negOnlyG (.int 9) (some "negative") negOnlyEnc
      "CLIPTextEncode" [.str " neg text "]).2.2.2.2.2.2.1
      (by decide) rfl rfl rfl (by decide),
   (C10_reader_absent_cases wsG (.list []) none wsWte "X" []).2.2.2.2.2.2.2
      rfl⟩

/-- C10 counterexample: on a registered encoder type whose widget value at
the rule's position is a truthy non-string, `_norm` calls `.strip()` on a
non-string and raises `AttributeError` — the reader is NOT error-free for
every node store. -/
theorem C10_counterexample :
    read_text_from_node badWidgetG (.int 1) none = .error () := rfl
